import Mathlib

/-!
Verification development for the LSP transport and session layer of the
opencode-python repository (src/core/lsp/).

The Python source is shallowly embedded: byte streams are `List Nat`
(each entry one byte value), the subprocess pipe is a list of chunks as
delivered by successive `read` calls, Python exceptions are an explicit
`Except` error type, and every function is translated statement by
statement from the corresponding Python definition, cited by file and
line in its doc comment.
-/

set_option maxRecDepth 10000

namespace OC

/-- Python exception classes that the embedded code can raise. -/
inductive PyErr where
  | attributeError
  | typeError
  | validationError
  | timeoutExpired
  | valueError
  deriving DecidableEq, Repr

/-! ## Wire codec: UTF-8 and decimal rendering

In `transport.py`, a frame is an f-string of a Content-Length header
carrying the UTF-8 byte length of the JSON body, CRLF CRLF, and the
body, encoded as UTF-8 (lines 83-86 and 121-123).  We embed
`str.encode("utf-8")` as `utf8Bytes`, written with division/modulo
arithmetic (equivalent to the usual shift/mask presentation of UTF-8). -/

/-- UTF-8 encoding of a single character (`str.encode("utf-8")`, per
char), with the bit operations written as division/modulo arithmetic. -/
def utf8EncodeChar (c : Char) : List Nat :=
  if c.toNat < 0x80 then [c.toNat]
  else if c.toNat < 0x800 then [0xC0 + c.toNat / 64, 0x80 + c.toNat % 64]
  else if c.toNat < 0x10000 then
    [0xE0 + c.toNat / 4096, 0x80 + (c.toNat / 64) % 64, 0x80 + c.toNat % 64]
  else
    [0xF0 + c.toNat / 262144, 0x80 + (c.toNat / 4096) % 64,
     0x80 + (c.toNat / 64) % 64, 0x80 + c.toNat % 64]

/-- Python `s.encode("utf-8")` as a byte list. -/
def utf8Bytes (s : String) : List Nat :=
  s.data.flatMap utf8EncodeChar

/-- Decimal rendering worker; the fuel argument only bounds the recursion
depth (any fuel above the digit count gives the same digits). -/
def natToDecAux (fuel : Nat) (n : Nat) : List Nat :=
  match fuel with
  | 0 => []
  | fuel + 1 =>
    if n < 10 then [48 + n] else natToDecAux fuel (n / 10) ++ [48 + n % 10]

/-- Decimal digits (byte values) of a natural number, as Python str of n
renders it inside the f-string. -/
def natToDecDigits (n : Nat) : List Nat :=
  natToDecAux (n + 1) n

/-- Python `int(text)` on a byte string: succeeds on a nonempty run of ASCII
digits, raises `ValueError` otherwise (the raise is modelled as `none`,
matching the `except Exception` handler around `_read_response`). -/
def parseDecDigits (l : List Nat) : Option Nat :=
  if l ≠ [] ∧ l.all (fun b => 48 ≤ b ∧ b ≤ 57) then
    some (l.foldl (fun acc b => acc * 10 + (b - 48)) 0)
  else none

/-- Embedding of `transport.py` lines 83-84 / 121-122: the framed request bytes
the UTF-8 encoding of the f-string of the Content-Length header (with
the UTF-8 byte length of the message), CRLF CRLF, and the message.
The header is pure ASCII, so its UTF-8 bytes are its character codes. -/
def encodeMessage (message : String) : List Nat :=
  (("Content-Length: ".data.map Char.toNat)
    ++ natToDecDigits (utf8Bytes message).length
    ++ [13, 10, 13, 10])
    ++ utf8Bytes message

/-! ## Wire codec: `Transport._read_response` (transport.py lines 128-213)

The pipe is modelled as the list of chunks that successive reads deliver;
an exhausted pipe stands for a read that times out or returns EOF (both
make `_read_response` return `None`).  An empty chunk is EOF
(`if not chunk: return None`, lines 152-154 and 194-196). -/

/-- Embedding of `buffer.find` of the terminator (transport.py line 161): index of the first
occurrence of the header terminator. -/
def findSep : List Nat → Option Nat
  | [] => none
  | b :: rest =>
    if (b :: rest).take 4 = [13, 10, 13, 10] then some 0
    else (findSep rest).map (fun i => i + 1)

/-- Embedding of the check that the terminator is in the buffer (transport.py line 135). -/
def hasSep (buffer : List Nat) : Bool :=
  (findSep buffer).isSome

/-- The header-accumulation loop (transport.py lines 135-158): read chunks
into `buffer` until the terminator appears.  Returns the buffer and the
unread part of the pipe; `none` models timeout or EOF. -/
def readHeaderLoop : List Nat → List (List Nat) → Option (List Nat × List (List Nat))
  | buffer, [] => if hasSep buffer then some (buffer, []) else none
  | buffer, chunk :: rest =>
    if hasSep buffer then some (buffer, chunk :: rest)
    else if chunk = [] then none
    else readHeaderLoop (buffer ++ chunk) rest

/-- Embedding of `header_text.split` on the CRLF separator (transport.py line 170), on bytes. -/
def splitOnCRLF : List Nat → List (List Nat)
  | [] => [[]]
  | 13 :: 10 :: rest => [] :: splitOnCRLF rest
  | b :: rest =>
    match splitOnCRLF rest with
    | [] => [[b]]
    | g :: gs => (b :: g) :: gs

/-- Embedding of `line.split` with one colon (transport.py line 172): split at the first colon. -/
def splitFirstColon : List Nat → Option (List Nat × List Nat)
  | [] => none
  | b :: rest =>
    if b = 58 then some ([], rest)
    else (splitFirstColon rest).map (fun p => (b :: p.1, p.2))

/-- Python `str.lower()` on one ASCII byte. -/
def lowerByte (b : Nat) : Nat :=
  if 65 ≤ b ∧ b ≤ 90 then b + 32 else b

/-- Membership in the default whitespace set of Python `str.strip()`. -/
def isSpaceByte (b : Nat) : Bool :=
  b = 32 || b = 9 || b = 10 || b = 13 || b = 11 || b = 12

/-- Python `str.strip()` on bytes. -/
def stripBytes (l : List Nat) : List Nat :=
  ((l.dropWhile isSpaceByte).reverse.dropWhile isSpaceByte).reverse

/-- The header-parsing loop (transport.py lines 169-173): build the
`headers` dict from the lines; a later assignment to the same key wins. -/
def headersOf (headerBytes : List Nat) : List (List Nat × List Nat) :=
  (splitOnCRLF headerBytes).foldl
    (fun acc line =>
      match splitFirstColon line with
      | none => acc
      | some (k, v) => acc ++ [((stripBytes k).map lowerByte, stripBytes v)])
    []

/-- Dict lookup where the last binding of the key wins. -/
def lookupLast (key : List Nat) : List (List Nat × List Nat) → Option (List Nat)
  | [] => none
  | (k, v) :: rest =>
    match lookupLast key rest with
    | some r => some r
    | none => if k = key then some v else none

/-- Embedding of `int(headers.get("content-length", "0"))` (transport.py line 175);
`none` models the `ValueError` a non-numeric value raises (swallowed by
the enclosing `except Exception`). -/
def contentLengthOf (headerBytes : List Nat) : Option Nat :=
  parseDecDigits
    ((lookupLast ("content-length".data.map Char.toNat) (headersOf headerBytes)).getD [48])

/-- Push unconsumed bytes of a chunk back onto the pipe (what the OS pipe
does with bytes a bounded `read(needed)` left behind). -/
def pushBack (leftover : List Nat) (pipe : List (List Nat)) : List (List Nat) :=
  if leftover = [] then pipe else leftover :: pipe

/-- The body-reading loop (transport.py lines 186-197):
`while len(content_bytes) < content_length: chunk = read(needed); ...`.
`read(needed)` returns at most `needed` bytes from the next delivery;
the final iteration (delivery at least as long as the deficit) is written
out so the recursion is structural on the pipe. -/
def readBodyLoop (contentLength : Nat) :
    List Nat → List (List Nat) → Option (List Nat × List (List Nat))
  | contentBytes, [] =>
    if contentBytes.length ≥ contentLength then some (contentBytes, []) else none
  | contentBytes, chunk :: rest =>
    if contentBytes.length ≥ contentLength then some (contentBytes, chunk :: rest)
    else if chunk = [] then none
    else
      let needed := contentLength - contentBytes.length
      if needed ≤ chunk.length then
        some (contentBytes ++ chunk.take needed, pushBack (chunk.drop needed) rest)
      else readBodyLoop contentLength (contentBytes ++ chunk) rest

/-- Embedding of `Transport._read_response` (transport.py lines 128-213) at the byte
level: returns the body bytes of one frame (before `json.loads`) and the
part of the pipe later reads can still see.  On every failure path the
function returns `None`; the local `buffer`, including any bytes of a
following frame it already holds, is dropped when the function returns
(it is a local variable, lines 131 and 199-200). -/
def readResponseBytes (pipe : List (List Nat)) : Option (List Nat) × List (List Nat) :=
  match readHeaderLoop [] pipe with
  | none => (none, [])
  | some (buffer, pipe1) =>
    match findSep buffer with
    | none => (none, [])
    | some idx =>
      let headerBytes := buffer.take idx
      let remaining := buffer.drop (idx + 4)
      match contentLengthOf headerBytes with
      | none => (none, [])
      | some 0 => (none, pipe1)
      | some (n + 1) =>
        match readBodyLoop (n + 1) remaining pipe1 with
        | none => (none, [])
        | some (contentBytes, pipe2) => (some (contentBytes.take (n + 1)), pipe2)

/-- Decode one UTF-8 sequence whose lead byte is `b` and whose following
bytes start `rest`: the decoded character and the bytes after the
sequence, or `none` for a malformed sequence (stray continuation byte,
overlong form, surrogate, out-of-range value, truncation) — the cases
strict Python UTF-8 decoding rejects. -/
def utf8DecodeOne (b : Nat) (rest : List Nat) : Option (Char × List Nat) :=
  if b < 0x80 then some (Char.ofNat b, rest)
  else if b < 0xC2 then none
  else if b < 0xE0 then
    match rest with
    | b1 :: r =>
      if 0x80 ≤ b1 ∧ b1 < 0xC0 then
        some (Char.ofNat ((b - 0xC0) * 64 + (b1 - 0x80)), r)
      else none
    | [] => none
  else if b < 0xF0 then
    match rest with
    | b1 :: b2 :: r =>
      if 0x80 ≤ b1 ∧ b1 < 0xC0 ∧ 0x80 ≤ b2 ∧ b2 < 0xC0 then
        if 0x800 ≤ (b - 0xE0) * 4096 + (b1 - 0x80) * 64 + (b2 - 0x80)
            ∧ ¬(0xD800 ≤ (b - 0xE0) * 4096 + (b1 - 0x80) * 64 + (b2 - 0x80)
                ∧ (b - 0xE0) * 4096 + (b1 - 0x80) * 64 + (b2 - 0x80) < 0xE000) then
          some (Char.ofNat ((b - 0xE0) * 4096 + (b1 - 0x80) * 64 + (b2 - 0x80)), r)
        else none
      else none
    | _ => none
  else if b < 0xF5 then
    match rest with
    | b1 :: b2 :: b3 :: r =>
      if 0x80 ≤ b1 ∧ b1 < 0xC0 ∧ 0x80 ≤ b2 ∧ b2 < 0xC0 ∧ 0x80 ≤ b3 ∧ b3 < 0xC0 then
        if 0x10000 ≤ (b - 0xF0) * 262144 + (b1 - 0x80) * 4096 + (b2 - 0x80) * 64 + (b3 - 0x80)
            ∧ (b - 0xF0) * 262144 + (b1 - 0x80) * 4096 + (b2 - 0x80) * 64 + (b3 - 0x80)
              < 0x110000 then
          some (Char.ofNat
            ((b - 0xF0) * 262144 + (b1 - 0x80) * 4096 + (b2 - 0x80) * 64 + (b3 - 0x80)), r)
        else none
      else none
    | _ => none
  else none

/-- Decode loop; `fuel` only bounds the recursion depth (each decoded
character consumes at least one byte, so any fuel at least the byte
count gives the decode result). -/
def utf8DecodeAux : Nat → List Nat → Option (List Char)
  | _, [] => some []
  | 0, _ :: _ => none
  | fuel + 1, b :: rest =>
    match utf8DecodeOne b rest with
    | none => none
    | some (c, r) => (utf8DecodeAux fuel r).map (fun cs => c :: cs)

/-- Python `bytes.decode("utf-8")`: strict UTF-8 decoding; `none` models the
raised `UnicodeDecodeError` (swallowed by the `except Exception` in
`_read_response`). -/
def utf8DecodeList (l : List Nat) : Option (List Char) :=
  utf8DecodeAux l.length l

/-- One full `_read_response` call at the message level: frame the bytes
out of the pipe, then `message_bytes.decode("utf-8")` (transport.py lines
203-206).  The JSON layer (`json.loads` / `json.dumps`) is the Python
standard library, not code of this repository; a message is therefore
represented by its serialized JSON text. -/
def readMessageText (pipe : List (List Nat)) : Option String × List (List Nat) :=
  match readResponseBytes pipe with
  | (none, r) => (none, r)
  | (some bs, r) =>
    match utf8DecodeList bs with
    | none => (none, [])
    | some cs => (some (String.mk cs), r)

/-! ## Transport at the message level (transport.py lines 68-112)

`send_request` writes one framed request and then loops on
`_read_response` until a message carrying the id it allocated arrives.
Each `_read_response` call returns one decoded JSON message or `None`;
the sequence of reads is modelled as a list of `Option Msg`, where
`none` is a read that timed out or hit EOF and an exhausted list means
every further read would return `None`. -/

/-- The fields of a decoded JSON-RPC message that `send_request` inspects:
`"id" in msg and msg["id"]`, and `msg.get("method")`. -/
structure Msg where
  id? : Option Int
  method? : Option String
  deriving DecidableEq, Repr

/-- The matching loop of `send_request` (transport.py lines 90-105): read
messages until one with `msg["id"] == self.request_id` arrives (returned)
or a read yields `None` (whole call returns `None`).  Non-matching
messages are printed and dropped; the second component is what later
reads will still see. -/
def matchLoop (rid : Int) : List (Option Msg) → Option Msg × List (Option Msg)
  | [] => (none, [])
  | none :: rest => (none, rest)
  | some m :: rest =>
    if m.id? = some rid then (some m, rest) else matchLoop rid rest

/-- Transport state as `send_request` uses it: `self.process` (alive or
`None`) and `self.request_id` (transport.py lines 19-20: starts at 0). -/
structure TransportSt where
  processSome : Bool
  request_id : Nat
  deriving DecidableEq, Repr

/-- Embedding of `Transport.send_request` (transport.py lines 68-106): `None` without
touching the id counter when `self.process` is `None`; otherwise
increment `self.request_id`, write the framed request, and run the
matching loop. -/
def send_request (t : TransportSt) (reads : List (Option Msg)) :
    Option Msg × TransportSt × List (Option Msg) :=
  if t.processSome then
    let rid := t.request_id + 1
    let (res, rest) := matchLoop (Int.ofNat rid) reads
    (res, { t with request_id := rid }, rest)
  else (none, t, reads)

/-! ### Timed model of `send_request` (for the timeout claim)

`_read_response(timeout=10.0)` waits at most 10 seconds for the next
message (transport.py lines 128, 137, 188); the loop in `send_request` calls
it afresh for each message, with no deadline of its own.  Arrivals are
modelled as `(time, message)` events in increasing order; one time unit
is one second. -/

/-- The per-read timeout of `_read_response` (transport.py line 128). -/
def readTimeout : Nat := 10

/-- The read loop of `send_request` against timed arrivals: a read started at
`now` returns the next event if it arrives within `readTimeout`,
otherwise `None` ends the call.  Returns the matched message and the
time at which `send_request` returns. -/
def sendRequestTimed (rid : Int) : Nat → List (Nat × Msg) → Option Msg × Nat
  | now, [] => (none, now + readTimeout)
  | now, (t, m) :: rest =>
    if t ≤ now + readTimeout then
      if m.id? = some rid then (some m, t)
      else sendRequestTimed rid t rest
    else (none, now + readTimeout)

/-- A server behaviour that keeps `send_request` busy: starting from time
`t0`, `n` notifications arriving `readTimeout` seconds apart, then the
matching response. -/
def floodFrom (rid : Int) (t0 : Nat) : Nat → List (Nat × Msg)
  | 0 => [(t0 + readTimeout, { id? := some rid, method? := none })]
  | n + 1 =>
    (t0 + readTimeout, { id? := none, method? := some "noise" }) :: floodFrom rid (t0 + readTimeout) n

/-- An `Option Msg` entry the matching loop will skip: a message that
arrived but carries a different (or no) id. -/
def skippable (rid : Int) (x : Option Msg) : Bool :=
  match x with
  | some mx => mx.id? ≠ some rid
  | none => false

/-! ## `Transport.stop` (transport.py lines 57-66) and Popen semantics

The `subprocess.Popen` handle is modelled with the behaviour of
`terminate` / `wait(timeout=5)` / `kill` on it: `terminate` is a no-op on
an already-exited process and never raises; `wait` raises
`TimeoutExpired` when the process is still alive after the grace period
(modelled by the `exitsOnTerminate` flag); `kill` always leaves the
process exited. -/

/-- Popen process handle state. -/
structure PyProcess where
  exited : Bool
  /-- Whether the process honours SIGTERM within the 5 s grace period. -/
  exitsOnTerminate : Bool
  /-- Whether SIGTERM has been delivered. -/
  signaled : Bool
  deriving DecidableEq, Repr

/-- Python `Popen.terminate()`: no-op on an exited process, never raises. -/
def procTerminate (p : PyProcess) : PyProcess :=
  if p.exited then p else { p with signaled := true }

/-- Python `Popen.wait` with the 5-second grace period: returns when the process has exited or exits
within the grace period, else raises `TimeoutExpired`. -/
def procWait5 (p : PyProcess) : Except PyErr PyProcess :=
  if p.exited then .ok p
  else if p.signaled ∧ p.exitsOnTerminate then .ok { p with exited := true }
  else .error .timeoutExpired

/-- Python `Popen.kill()`: forcibly ends the process; never raises. -/
def procKill (p : PyProcess) : PyProcess :=
  { p with exited := true }

/-- The process slot of a Transport (`self.process`, transport.py line 19);
`stop` never clears it. -/
structure TransportProc where
  process : Option PyProcess
  deriving DecidableEq, Repr

/-- Embedding of `Transport.stop` (transport.py lines 57-66), with its `try/except`
written out: `terminate` then `wait(5)`; `TimeoutExpired` is answered by
`kill()`, any other exception is logged and swallowed.  The result is an
`Except` so that an exception escaping `stop` would be visible as
`.error`. -/
def Transport.stop (t : TransportProc) : Except PyErr TransportProc :=
  match t.process with
  | none => .ok t
  | some p =>
    let p1 := procTerminate p
    match procWait5 p1 with
    | .ok p2 => .ok { process := some p2 }
    | .error .timeoutExpired => .ok { process := some (procKill p1) }
    | .error _ => .ok { process := some p1 }

/-! ## Client orchestrator (client.py) -/

/-- The registry `self._active_servers` (client.py line 26): a dict from language to
its Transport.  The only Transport fact the registry claims need is
whether `stop()` has been called on the registered Transport, so the
stored value is that flag (`false` = running, `true` = stopped). -/
abbrev Registry := List (String × Bool)

/-- Python dict assignment `d[lang] = v`: replace the existing binding or
append a new one. -/
def regSet (reg : Registry) (lang : String) (v : Bool) : Registry :=
  if (reg.map Prod.fst).contains lang then
    reg.map (fun e => if e.1 = lang then (lang, v) else e)
  else reg ++ [(lang, v)]

/-- Python dict lookup `reg.get(lang)`. -/
def regGet (reg : Registry) (lang : String) : Option Bool :=
  (reg.find? (fun e => e.1 = lang)).map Prod.snd

/-- Embedding of `LSPClient.start_language_server` (client.py lines 28-52).  The launch
and handshake outcomes are inputs (`startOk` for `transport.start()`,
`initOk` for `methods.initialize(root_path)`); the function returns the
Python return value and the registry afterwards.  Translated line by
line: the registry insert `self._active_servers[language] = transport`
happens as soon as `transport.start()` succeeds (line 33), before
`initialize` runs (line 38); the failure branch calls `transport.stop()`
on the registered Transport (line 45) but performs no registry
removal. -/
def start_language_server (reg : Registry) (language : String)
    (startOk initOk : Bool) : Bool × Registry :=
  if startOk then
    let reg1 := regSet reg language false
    if initOk then (true, reg1)
    else (false, regSet reg1 language true)
  else (false, reg)

/-- The shapes a JSON-RPC `result` field can take, as far as
`text_document_definition` (methods.py lines 138-149) distinguishes
them: absent key, `null`, a JSON array, a JSON object that parses as a
`Location`, or an object that does not. -/
inductive ResultShape where
  | null
  | array (n : Nat)
  | locObject (uri : String)
  | otherObject
  deriving DecidableEq, Repr

/-- A decoded response as the Session methods see it: `send_request`
returned `None`, or a dict which may or may not carry a `"result"` key. -/
structure RpcResponse where
  result? : Option ResultShape
  deriving DecidableEq, Repr

/-- The embedded `Location` value (protocol.py lines 23-27; the range
payload is irrelevant to the claims and kept abstract in the uri). -/
structure Location where
  uri : String
  deriving DecidableEq, Repr

/-- Embedding of `LSPMethods.text_document_definition` (methods.py lines 138-149):
`if response and "result" in response: return Location(**response["result"])`.
`Location(**None)` and `Location(**list)` raise `TypeError`;
`Location(**dict)` with fields not matching the model raises a pydantic
validation error; none of these is caught in methods.py. -/
def text_document_definition (response : Option RpcResponse) :
    Except PyErr (Option Location) :=
  match response with
  | none => .ok none
  | some r =>
    match r.result? with
    | none => .ok none
    | some .null => .error .typeError
    | some (.array _) => .error .typeError
    | some (.locObject u) => .ok (some { uri := u })
    | some .otherObject => .error .validationError

/-- Embedding of `LSPClient.get_definition` (client.py lines 88-93): look up a session
(`sessionAvailable` abbreviates `get_language_server` finding one) and
delegate; there is no exception handling on this path. -/
def get_definition (sessionAvailable : Bool) (response : Option RpcResponse) :
    Except PyErr (Option Location) :=
  if sessionAvailable then text_document_definition response
  else .ok none

/-- One iteration of the `stop_all_servers` loop body (client.py lines
170-175): `try: transport.stop() except Exception: log`.  The `try`
swallows whatever `stop` raises and keeps the post-`stop` transport
state. -/
def stopOneGuarded (t : TransportProc) : TransportProc :=
  match Transport.stop t with
  | .ok u => u
  | .error _ => t

/-- Embedding of `LSPClient.stop_all_servers` (client.py lines 168-176): call `stop` on
every registered transport inside a per-transport `try/except`, then
`self._active_servers.clear()`.  The result is an `Except` so that an
exception escaping the method would be visible as `.error`; the list of
transports the loop acted on is recorded before the registry is
cleared. -/
def stop_all_servers (servers : List TransportProc) :
    Except PyErr (List TransportProc × List TransportProc) :=
  let acted := servers.map stopOneGuarded
  .ok (acted, [])

/-! ## POSIX paths and file URIs (pathlib behaviour used by methods.py)

`text_document_did_open` (methods.py line 110) builds the URI as the raw
string `f"file://{file_path}"`, while the diagnostics loop (methods.py
line 419) compares against `Path(file_path).resolve().as_uri()`.  A POSIX
path is modelled as an absolute flag plus its components; symbolic links
and the percent-quoting in `as_uri` are outside the model, so the theorems
restrict components to nonempty, slash-free, quote-unaffected strings. -/

/-- A POSIX path: `absolute` is whether the string starts with `/`,
`comps` its slash-separated components. -/
structure PyPath where
  absolute : Bool
  comps : List String
  deriving DecidableEq, Repr

/-- Join components with `/`. -/
def joinComps : List String → String
  | [] => ""
  | [c] => c
  | c :: c2 :: rest => c ++ "/" ++ joinComps (c2 :: rest)

/-- The path string as passed to `f"file://{file_path}"`. -/
def rawPathStr (p : PyPath) : String :=
  (if p.absolute then "/" else "") ++ joinComps p.comps

/-- The URI under which `text_document_did_open` opens the document
(methods.py lines 110 and 91). -/
def openedUriStr (p : PyPath) : String :=
  "file://" ++ rawPathStr p

/-- The component normalisation `Path.resolve()` performs (minus
symlinks): drop `.`, let `..` consume the previous component (the parent
of the root is the root). -/
def resolveComps (acc : List String) : List String → List String
  | [] => acc.reverse
  | c :: rest =>
    if c = "." then resolveComps acc rest
    else if c = ".." then resolveComps acc.tail rest
    else resolveComps (c :: acc) rest

/-- Python `Path(file_path).resolve()` with current directory `cwd` (an absolute,
already-resolved component list): relative paths are anchored at `cwd`. -/
def resolvedComps (cwd : List String) (p : PyPath) : List String :=
  resolveComps [] ((if p.absolute then [] else cwd) ++ p.comps)

/-- Python `Path.as_uri()` on an absolute path with the given components
(quoting not modelled; see section comment). -/
def asUri (comps : List String) : String :=
  "file://" ++ ("/" ++ joinComps comps)

/-- The URI the diagnostics loop captures publishes under (methods.py line
419): `Path(file_path).resolve().as_uri()`. -/
def targetUriStr (cwd : List String) (p : PyPath) : String :=
  asUri (resolvedComps cwd p)

/-- Size measure for component lists: each component contributes its
length plus one (its separator), so `joinComps l` has length
`compMeasure l - 1` for nonempty `l`. -/
def compMeasure (l : List String) : Nat :=
  (l.map (fun c => c.length + 1)).sum

/-! ## Diagnostics protocol driver (`text_document_diagnostic`,
methods.py lines 345-433) -/

/-- One published diagnostic after `Diagnostic(**d)` (protocol.py lines
70-77; only identity matters to the claims, the payload fields are
carried opaquely). -/
structure Diagnostic where
  severity : Nat
  message : String
  deriving DecidableEq, Repr

/-- The server messages the driver distinguishes, by the fields it reads:
`msg.get("method")`, `msg.get("id")`, `params.items[*].section`,
`params.uri`, `params.diagnostics`. -/
inductive DMsg where
  | config (id : Int) (sections : List (Option String))
  | publish (uri : String) (diags : List Diagnostic)
  | logMessage (text : String)
  | other
  deriving DecidableEq, Repr

/-- A value in the synthesized `workspace/configuration` reply. -/
inductive ConfigVal where
  | emptyObj
  /-- the `typeCheckingMode: basic, diagnosticMode: workspace` object -/
  | analysisSettings
  deriving DecidableEq, Repr

/-- The reply-synthesis loop (methods.py lines 358-371 and 395-408): one
entry per requested item; `python` and `pyright` get an empty object,
`python.analysis` the fixed analysis settings, anything else `None`. -/
def configReply (sections : List (Option String)) : List (Option ConfigVal) :=
  sections.map (fun sec =>
    if sec = some "python" then some .emptyObj
    else if sec = some "python.analysis" then some .analysisSettings
    else if sec = some "pyright" then some .emptyObj
    else none)

/-- The attributes (methods and fields) defined on the `Transport` class,
transport.py lines 17-128: `__init__` sets `server_command`, `process`,
`request_id`, `logger`; the methods are `start`, `stop`, `send_request`,
`send_notification`, `_read_response`. -/
def transportAttributes : List String :=
  ["server_command", "process", "request_id", "logger",
   "start", "stop", "send_request", "send_notification", "_read_response"]

/-- Whether the attribute access `self.transport.send_response` succeeds;
when it does not, Python raises `AttributeError` before any argument is
evaluated or anything is written to the server. -/
def transportHasSendResponse : Bool :=
  transportAttributes.contains "send_response"

/-- The responses `transport.send_response` delivered, as pairs of the
original request id and the synthesized per-section results. -/
abbrev SentResponses := List (Int × List (Option ConfigVal))

/-- The handshake loop (methods.py lines 351-378): drain reads for the
2-second window, answering `workspace/configuration` and logging
`window/logMessage`; everything else is ignored.  The reads the window
contains are the input list (a `none` entry is a read that returned
nothing).  The accumulated sent responses are returned even when an
exception aborts the loop. -/
def handshakePhase (sent : SentResponses) :
    List (Option DMsg) → SentResponses × Except PyErr Unit
  | [] => (sent, .ok ())
  | none :: rest => handshakePhase sent rest
  | some (.config i secs) :: rest =>
    if transportHasSendResponse then
      handshakePhase (sent ++ [(i, configReply secs)]) rest
    else (sent, .error .attributeError)
  | some (.logMessage _) :: rest => handshakePhase sent rest
  | some (.publish _ _) :: rest => handshakePhase sent rest
  | some .other :: rest => handshakePhase sent rest

/-- The constant `max_attempts` (methods.py line 384). -/
def maxAttempts : Nat := 30

/-- The publish-await loop (methods.py lines 386-429), one recursive step
per `attempt`: a read yielding nothing burns the attempt; late
`workspace/configuration` requests are answered as in the handshake;
a `textDocument/publishDiagnostics` for the target URI replaces a
missing or empty best-known list, returning immediately when non-empty;
attempt exhaustion returns `diagnostics or []` (line 429). -/
def diagLoop (targetUri : String) (sent : SentResponses) :
    Nat → List (Option DMsg) → Option (List Diagnostic) →
    SentResponses × Except PyErr (List Diagnostic)
  | 0, _, best => (sent, .ok (best.getD []))
  | fuel + 1, reads, best =>
    match reads with
    | [] => diagLoop targetUri sent fuel [] best
    | none :: rest => diagLoop targetUri sent fuel rest best
    | some (.config i secs) :: rest =>
      if transportHasSendResponse then
        diagLoop targetUri (sent ++ [(i, configReply secs)]) fuel rest best
      else (sent, .error .attributeError)
    | some (.publish uri ds) :: rest =>
      if uri = targetUri then
        if best = none ∨ best = some [] then
          if ds ≠ [] then (sent, .ok ds)
          else diagLoop targetUri sent fuel rest (some ds)
        else diagLoop targetUri sent fuel rest best
      else diagLoop targetUri sent fuel rest best
    | some (.logMessage _) :: rest => diagLoop targetUri sent fuel rest best
    | some .other :: rest => diagLoop targetUri sent fuel rest best

/-- A read entry that is not a `workspace/configuration` request. -/
def noConfig (x : Option DMsg) : Bool :=
  match x with
  | some (.config _ _) => false
  | _ => true

/-- A read entry the publish-await loop passes over without capturing:
anything but a configuration request or a publish for the target URI. -/
def benign (target : String) (x : Option DMsg) : Bool :=
  match x with
  | some (.config _ _) => false
  | some (.publish uri _) => uri ≠ target
  | _ => true

/-- A read entry whose publishes (if any) are delivered under the URI the
document was opened with, and which is not a configuration request. -/
def underOpened (opened : String) (x : Option DMsg) : Bool :=
  match x with
  | some (.config _ _) => false
  | some (.publish uri _) => uri = opened
  | _ => true

/-- Characters `urllib` percent-quoting leaves unchanged, so that
`Path.as_uri` (whose quoting the path model omits) is the identity on the
component. -/
def uriSafeChar (c : Char) : Bool :=
  c.isAlphanum || c = '.' || c = '_' || c = '-' || c = '~'

/-- A well-formed path component for the URI claims: nonempty and made of
quote-unaffected characters (in particular it contains no `/`). -/
def goodComp (c : String) : Bool :=
  decide (c ≠ "") && c.data.all uriSafeChar

/-- A component `Path.resolve()` leaves in place. -/
def plainComp (c : String) : Bool :=
  decide (c ≠ ".") && decide (c ≠ "..")

/-- The observable outcome of one `text_document_diagnostic` call. -/
structure DiagRun where
  /-- The URI `textDocument/didOpen` was sent under, when it was sent. -/
  openedUri? : Option String
  /-- Replies delivered to server `workspace/configuration` requests. -/
  sentResponses : SentResponses
  /-- The Python return value. -/
  diags : List Diagnostic
  deriving DecidableEq, Repr

/-- Embedding of `LSPMethods.text_document_diagnostic` (methods.py lines 345-433):
handshake window, then `didOpen` under `f"file://{file_path}"` (line
381), then the publish-await loop against
`Path(file_path).resolve().as_uri()` (line 419).  The whole body sits in
`try: ... except Exception: return []` (lines 347 and 431-433). -/
def text_document_diagnostic (cwd : List String) (p : PyPath)
    (handshakeReads loopReads : List (Option DMsg)) : DiagRun :=
  match handshakePhase [] handshakeReads with
  | (sent, .error _) =>
    { openedUri? := none, sentResponses := sent, diags := [] }
  | (sent1, .ok _) =>
    let opened := openedUriStr p
    match diagLoop (targetUriStr cwd p) sent1 maxAttempts loopReads none with
    | (sent2, .error _) =>
      { openedUri? := some opened, sentResponses := sent2, diags := [] }
    | (sent2, .ok ds) =>
      { openedUri? := some opened, sentResponses := sent2, diags := ds }

/-! # Theorems

## Registry lemmas (client.py) -/

theorem regGet_map_update (lang : String) (v : Bool) :
    ∀ reg : Registry, (∃ e ∈ reg, e.1 = lang) →
      regGet (reg.map (fun e => if e.1 = lang then (lang, v) else e)) lang = some v := by
  intro reg
  induction reg with
  | nil => rintro ⟨e, he, _⟩; simp at he
  | cons e rest ih =>
    intro hmem
    by_cases he : e.1 = lang
    · simp [regGet, List.find?_cons, he]
    · obtain ⟨x, hx, hx1⟩ := hmem
      rcases List.mem_cons.mp hx with hx2 | hx2
      · exact absurd (hx2 ▸ hx1) he
      · have h2 := ih ⟨x, hx2, hx1⟩
        unfold regGet at h2 ⊢
        simpa [List.find?_cons, he] using h2

theorem regGet_map_update_other (lang l : String) (v : Bool) (h : l ≠ lang) :
    ∀ reg : Registry,
      regGet (reg.map (fun e => if e.1 = lang then (lang, v) else e)) l = regGet reg l := by
  intro reg
  induction reg with
  | nil => rfl
  | cons e rest ih =>
    by_cases he : e.1 = lang
    · have h1 : ¬(lang = l) := fun hx => h hx.symm
      have h2 : ¬(e.1 = l) := he ▸ h1
      unfold regGet at ih ⊢
      simpa [List.find?_cons, he, h1, h2] using ih
    · rw [List.map_cons, if_neg he]
      by_cases hel : e.1 = l
      · simp [regGet, List.find?_cons, hel]
      · unfold regGet at ih ⊢
        simpa [List.find?_cons, hel] using ih

theorem regGet_append_new (lang : String) (v : Bool) :
    ∀ reg : Registry, (∀ e ∈ reg, e.1 ≠ lang) →
      regGet (reg ++ [(lang, v)]) lang = some v := by
  intro reg
  induction reg with
  | nil => intro _; simp [regGet, List.find?_cons]
  | cons e rest ih =>
    intro hall
    have he : ¬(e.1 = lang) := hall e (by simp)
    have h2 := ih (fun x hx => hall x (by simp [hx]))
    unfold regGet at h2 ⊢
    simpa [List.find?_cons, he] using h2

theorem regGet_append_other (lang l : String) (v : Bool) (h : l ≠ lang) :
    ∀ reg : Registry, regGet (reg ++ [(lang, v)]) l = regGet reg l := by
  intro reg
  induction reg with
  | nil =>
    have h2 : ¬(lang = l) := fun hx => h hx.symm
    simp [regGet, List.find?_cons, h2]
  | cons e rest ih =>
    by_cases hel : e.1 = l
    · simp [regGet, List.find?_cons, hel]
    · unfold regGet at ih ⊢
      simpa [List.find?_cons, hel] using ih

theorem regGet_regSet_same (reg : Registry) (lang : String) (v : Bool) :
    regGet (regSet reg lang v) lang = some v := by
  unfold regSet
  by_cases hc : (reg.map Prod.fst).contains lang
  · rw [if_pos hc]
    refine regGet_map_update lang v reg ?_
    have := List.elem_iff.mp hc
    simpa using this
  · rw [if_neg hc]
    refine regGet_append_new lang v reg ?_
    intro e he heq
    exact hc (List.elem_iff.mpr (List.mem_map.mpr ⟨e, he, heq⟩))

theorem regGet_regSet_other (reg : Registry) (lang l : String) (v : Bool)
    (h : l ≠ lang) : regGet (regSet reg lang v) l = regGet reg l := by
  unfold regSet
  by_cases hc : (reg.map Prod.fst).contains lang
  · rw [if_pos hc]
    exact regGet_map_update_other lang l v h reg
  · rw [if_neg hc]
    exact regGet_append_other lang l v h reg

/-- Claim C2 counterexample: with an empty registry, a server command
whose launch succeeds and whose `initialize` handshake fails leaves the
registry holding an entry for the language (its Transport stopped), and
returns `False` — the claim that "the registry is left with no entry for
that language" is false at this input. -/
theorem start_language_server_failed_init_leaves_entry :
    start_language_server [] "python" true false = (false, [("python", true)]) ∧
    regGet (start_language_server [] "python" true false).2 "python" ≠ none := by
  constructor
  · rfl
  · intro h
    simp [start_language_server, regSet, regGet, List.find?] at h

/-- Claim C2 (amended): if `Transport.start` fails the registry is
unchanged and `False` is returned; if `Transport.start` succeeds the
registry afterwards always holds an entry for the language — with its
Transport stopped exactly when `initialize` failed — other languages are
untouched, and the returned flag is the `initialize` outcome. -/
theorem start_language_server_registry (reg : Registry) (language : String)
    (initOk : Bool) :
    (∀ i, start_language_server reg language false i = (false, reg)) ∧
    (start_language_server reg language true initOk).1 = initOk ∧
    regGet (start_language_server reg language true initOk).2 language
      = some (!initOk) ∧
    (∀ l, l ≠ language →
      regGet (start_language_server reg language true initOk).2 l = regGet reg l) := by
  refine ⟨fun i => rfl, ?_, ?_, ?_⟩
  · cases initOk <;> rfl
  · cases initOk with
    | false =>
      show regGet (regSet (regSet reg language false) language true) language = some true
      exact regGet_regSet_same _ _ _
    | true =>
      show regGet (regSet reg language false) language = some false
      exact regGet_regSet_same _ _ _
  · intro l hl
    cases initOk with
    | false =>
      show regGet (regSet (regSet reg language false) language true) l = regGet reg l
      rw [regGet_regSet_other _ _ _ _ hl, regGet_regSet_other _ _ _ _ hl]
    | true =>
      show regGet (regSet reg language false) l = regGet reg l
      rw [regGet_regSet_other _ _ _ _ hl]

/-- Witness for `start_language_server_registry` at a concrete registry,
language and init outcome. -/
theorem start_language_server_registry_witness :
    regGet (start_language_server [("go", false)] "python" true false).2 "python"
      = some true ∧
    regGet (start_language_server [("go", false)] "python" true false).2 "go"
      = some false := by
  have h := start_language_server_registry [("go", false)] "python" false
  refine ⟨h.2.2.1, ?_⟩
  have h2 := h.2.2.2 "go" (by decide)
  rw [h2]
  rfl

/-! ## Session result handling (methods.py / client.py) -/

/-- Claim C3 counterexample: a server response that is present but whose
`result` field is `null` — e.g. the standard "no definition found" reply —
makes `get_definition` raise `TypeError` (from `Location(**None)`,
methods.py line 148) instead of returning nil, so the public operation is
not exception-free. -/
theorem get_definition_null_result_raises :
    get_definition true (some { result? := some .null }) = .error .typeError ∧
    get_definition true (some { result? := some (.array 2) }) = .error .typeError := by
  exact ⟨rfl, rfl⟩

/-- Claim C3 (amended): the Session/Client definition path returns nil
when no session exists, when the transport returned no response, or when
the response lacks a `result` key, and returns the parsed location for a
well-shaped object result; but a `result` that is present and `null` or a
JSON array raises `TypeError`, and an object of the wrong shape raises a
validation error — these exceptions propagate uncaught through
`get_definition`. -/
theorem get_definition_cases (resp : Option RpcResponse) :
    (get_definition false resp = .ok none) ∧
    (get_definition true none = .ok none) ∧
    (∀ r, resp = some r → r.result? = none → get_definition true resp = .ok none) ∧
    (∀ r u, resp = some r → r.result? = some (.locObject u) →
      get_definition true resp = .ok (some { uri := u })) ∧
    (∀ r, resp = some r → r.result? = some .null →
      get_definition true resp = .error .typeError) ∧
    (∀ r n, resp = some r → r.result? = some (.array n) →
      get_definition true resp = .error .typeError) ∧
    (∀ r, resp = some r → r.result? = some .otherObject →
      get_definition true resp = .error .validationError) := by
  refine ⟨rfl, rfl, ?_, ?_, ?_, ?_, ?_⟩
  · rintro r rfl hr
    simp [get_definition, text_document_definition, hr]
  · rintro r u rfl hr
    simp [get_definition, text_document_definition, hr]
  · rintro r rfl hr
    simp [get_definition, text_document_definition, hr]
  · rintro r n rfl hr
    simp [get_definition, text_document_definition, hr]
  · rintro r rfl hr
    simp [get_definition, text_document_definition, hr]

/-- Witness for `get_definition_cases` at concrete responses. -/
theorem get_definition_cases_witness :
    get_definition true (some { result? := none }) = .ok none ∧
    get_definition true (some { result? := some (.locObject "file:///a.py") })
      = .ok (some { uri := "file:///a.py" }) := by
  refine ⟨?_, ?_⟩
  · exact (get_definition_cases (some { result? := none })).2.2.1 _ rfl rfl
  · exact (get_definition_cases (some { result? := some (.locObject "file:///a.py") })).2.2.2.1
      _ "file:///a.py" rfl rfl

/-! ## Shutdown (transport.py `stop`, client.py `stop_all_servers`) -/

/-- Claim C9: `Transport.stop` never lets an exception escape — also on a
process that has already exited, and also when called a second time on
the transport it returned — and `stop_all_servers` never errors, clears
the registry (including when it holds zero servers), and is safe to call
twice. -/
theorem stop_never_raises (t : TransportProc) : ∃ u, Transport.stop t = .ok u := by
  match t with
  | { process := none } => exact ⟨_, rfl⟩
  | { process := some p } =>
    by_cases hx : p.exited
    · refine ⟨{ process := some p }, ?_⟩
      simp [Transport.stop, procTerminate, procWait5, hx]
    · by_cases hs : p.exitsOnTerminate
      · refine ⟨{ process := some { p with signaled := true, exited := true } }, ?_⟩
        simp [Transport.stop, procTerminate, procWait5, hx, hs]
      · refine ⟨{ process := some { p with signaled := true, exited := true } }, ?_⟩
        simp [Transport.stop, procTerminate, procWait5, procKill, hx, hs]

/-- Claim C9: `Transport.stop` never lets an exception escape — also on a
process that has already exited, and also when called a second time on
the transport it returned — and `stop_all_servers` never errors, clears
the registry (including when it holds zero servers), and is safe to call
twice. -/
theorem shutdown_idempotent (t : TransportProc) (servers : List TransportProc) :
    (∃ u, Transport.stop t = .ok u ∧ ∃ v, Transport.stop u = .ok v) ∧
    (∃ acted, stop_all_servers servers = .ok (acted, [])) ∧
    stop_all_servers [] = .ok ([], []) := by
  obtain ⟨u, hu⟩ := stop_never_raises t
  obtain ⟨v, hv⟩ := stop_never_raises u
  exact ⟨⟨u, hu, v, hv⟩, ⟨servers.map stopOneGuarded, rfl⟩, rfl⟩

/-! ## Request/response correlation (transport.py `send_request`) -/

theorem matchLoop_skip_front (rid : Int) :
    ∀ pre tail : List (Option Msg), pre.all (skippable rid) = true →
      matchLoop rid (pre ++ tail) = matchLoop rid tail := by
  intro pre
  induction pre with
  | nil => intro tail _; rfl
  | cons x rest ih =>
    intro tail hall
    rw [List.all_cons, Bool.and_eq_true] at hall
    match x with
    | none => simp [skippable] at hall
    | some mx =>
      have h1 : ¬(mx.id? = some rid) := by simpa [skippable] using hall.1
      rw [List.cons_append]
      show (if mx.id? = some rid then _ else matchLoop rid (rest ++ tail)) = _
      rw [if_neg h1]
      exact ih tail hall.2

theorem matchLoop_result_id (rid : Int) :
    ∀ reads m, (matchLoop rid reads).1 = some m → m.id? = some rid := by
  intro reads
  induction reads with
  | nil => intro m h; simp [matchLoop] at h
  | cons x rest ih =>
    intro m h
    match x with
    | none => simp [matchLoop] at h
    | some mx =>
      by_cases hid : mx.id? = some rid
      · simp [matchLoop, hid] at h
        rw [← h]
        exact hid
      · rw [show matchLoop rid (some mx :: rest)
            = if mx.id? = some rid then (some mx, rest) else matchLoop rid rest from rfl,
          if_neg hid] at h
        exact ih m h

/-- Claim C7: each `send_request` call allocates a strictly larger request
id than the previous one (and a second call allocates yet a larger one,
so ids are never reused); any message it returns carries exactly the id
allocated for that call; messages with any other id (or none) arriving
first are skipped and consumed, and the matching message is consumed as
well, leaving only the later traffic for subsequent calls. -/
theorem send_request_id_correlation (t : TransportSt) (pre tail : List (Option Msg))
    (m : Msg) (halive : t.processSome = true)
    (hpre : pre.all (skippable (Int.ofNat (t.request_id + 1))) = true)
    (hm : m.id? = some (Int.ofNat (t.request_id + 1))) :
    ((send_request t (pre ++ some m :: tail)).2.1.request_id = t.request_id + 1) ∧
    ((send_request t (pre ++ some m :: tail)).1 = some m) ∧
    ((send_request t (pre ++ some m :: tail)).2.2 = tail) ∧
    (∀ reads res, (send_request t reads).1 = some res →
      res.id? = some (Int.ofNat (t.request_id + 1))) ∧
    (∀ reads reads2,
      (send_request (send_request t reads).2.1 reads2).2.1.request_id
        = t.request_id + 2) := by
  have hml : matchLoop (Int.ofNat (t.request_id + 1)) (pre ++ some m :: tail)
      = (some m, tail) := by
    rw [matchLoop_skip_front _ pre _ hpre]
    show (if m.id? = some (Int.ofNat (t.request_id + 1)) then _ else _) = _
    rw [if_pos hm]
  have hcast : ((t.request_id : Int) + 1) = Int.ofNat (t.request_id + 1) := by simp
  refine ⟨?_, ?_, ?_, ?_, ?_⟩
  · simp [send_request, halive]
  · simp only [send_request, halive, if_true]
    rw [hml]
  · simp only [send_request, halive, if_true]
    rw [hml]
  · intro reads res h
    rw [show send_request t reads
        = if t.processSome then
            ((matchLoop (Int.ofNat (t.request_id + 1)) reads).1,
             { t with request_id := t.request_id + 1 },
             (matchLoop (Int.ofNat (t.request_id + 1)) reads).2)
          else (none, t, reads) from by
      simp [send_request]] at h
    rw [if_pos halive] at h
    exact matchLoop_result_id _ reads res h
  · intro reads reads2
    simp [send_request, halive]

/-- Witness for `send_request_id_correlation`: two skipped messages (a
response to a stale id and a notification), then the matching response. -/
theorem send_request_id_correlation_witness :
    (send_request { processSome := true, request_id := 0 }
      ([some { id? := some 7, method? := none }, some { id? := none, method? := some "n" }]
        ++ some { id? := some 1, method? := none } :: [some { id? := some 9, method? := none }])).1
      = some { id? := some 1, method? := none } ∧
    (send_request { processSome := true, request_id := 0 }
      ([some { id? := some 7, method? := none }, some { id? := none, method? := some "n" }]
        ++ some { id? := some 1, method? := none } :: [some { id? := some 9, method? := none }])).2.2
      = [some { id? := some 9, method? := none }] := by
  have h := send_request_id_correlation { processSome := true, request_id := 0 }
    [some { id? := some 7, method? := none }, some { id? := none, method? := some "n" }]
    [some { id? := some 9, method? := none }]
    { id? := some 1, method? := none } (by decide) (by decide) (by decide)
  exact ⟨h.2.1, h.2.2.1⟩

/-! ## No overall timeout in `send_request` (transport.py lines 90-105) -/

theorem sendRequestTimed_flood (rid : Int) :
    ∀ n t0, sendRequestTimed rid t0 (floodFrom rid t0 n)
      = (some { id? := some rid, method? := none }, t0 + readTimeout * (n + 1)) := by
  intro n
  induction n with
  | zero =>
    intro t0
    simp [floodFrom, sendRequestTimed]
  | succ n ih =>
    intro t0
    show sendRequestTimed rid t0
      ((t0 + readTimeout, { id? := none, method? := some "noise" })
        :: floodFrom rid (t0 + readTimeout) n) = _
    rw [show sendRequestTimed rid t0
        ((t0 + readTimeout, { id? := none, method? := some "noise" })
          :: floodFrom rid (t0 + readTimeout) n)
        = if t0 + readTimeout ≤ t0 + readTimeout then
            if ({ id? := none, method? := some "noise" } : Msg).id? = some rid then
              (some { id? := none, method? := some "noise" }, t0 + readTimeout)
            else sendRequestTimed rid (t0 + readTimeout) (floodFrom rid (t0 + readTimeout) n)
          else (none, t0 + readTimeout) from rfl]
    rw [if_pos (Nat.le_refl _), if_neg (by simp)]
    rw [ih (t0 + readTimeout)]
    have : t0 + readTimeout + readTimeout * (n + 1) = t0 + readTimeout * (n + 1 + 1) := by ring
    rw [this]

/-- Claim C8 counterexample: three notifications spaced at the per-read
timeout, then the response: `send_request` returns the response at time
40 — far past the only timeout in the code (the 10-second per-read
timeout) — instead of returning nil when an overall budget elapses; no
overall timeout exists. -/
theorem send_request_no_overall_timeout_cex :
    (sendRequestTimed 1 0 (floodFrom 1 0 3)).1 = some { id? := some 1, method? := none } ∧
    (sendRequestTimed 1 0 (floodFrom 1 0 3)).2 = 40 ∧
    40 > readTimeout := by
  exact ⟨rfl, rfl, by decide⟩

/-- Claim C8 (amended): every single read is bounded — with no message
arriving within the 10-second per-read timeout, `send_request` returns
nil at `now + readTimeout` — but there is no overall budget: for every
bound `T` a server that keeps emitting non-matching messages inside each
per-read window keeps `send_request` running past `T`, after which the
call still returns the matching response rather than nil. -/
theorem send_request_per_read_timeout_only (rid : Int) (now T : Nat) :
    (sendRequestTimed rid now [] = (none, now + readTimeout)) ∧
    (∃ evs, (sendRequestTimed rid 0 evs).1 = some { id? := some rid, method? := none } ∧
      (sendRequestTimed rid 0 evs).2 > T) := by
  refine ⟨rfl, ⟨floodFrom rid 0 T, ?_, ?_⟩⟩
  · rw [sendRequestTimed_flood rid T 0]
  · rw [sendRequestTimed_flood rid T 0]
    show 0 + readTimeout * (T + 1) > T
    simp only [readTimeout]
    omega

/-! ## Diagnostics driver lemmas (methods.py `text_document_diagnostic`) -/

theorem transport_lacks_send_response : transportHasSendResponse = false := by decide

theorem handshakePhase_sent :
    ∀ (hs : List (Option DMsg)) (sent : SentResponses),
      (handshakePhase sent hs).1 = sent := by
  intro hs
  induction hs with
  | nil => intro sent; rfl
  | cons x rest ih =>
    intro sent
    match x with
    | none => exact ih sent
    | some (.config i secs) =>
      show (if transportHasSendResponse then _ else (sent, _) : SentResponses × _).1 = sent
      rw [transport_lacks_send_response]
      rfl
    | some (.publish u ds) => exact ih sent
    | some (.logMessage s) => exact ih sent
    | some .other => exact ih sent

theorem handshakePhase_ok_of_noConfig :
    ∀ (hs : List (Option DMsg)) (sent : SentResponses), hs.all noConfig = true →
      handshakePhase sent hs = (sent, .ok ()) := by
  intro hs
  induction hs with
  | nil => intro sent _; rfl
  | cons x rest ih =>
    intro sent hall
    rw [List.all_cons, Bool.and_eq_true] at hall
    match x with
    | none => exact ih sent hall.2
    | some (.config i secs) => simp [noConfig] at hall
    | some (.publish u ds) => exact ih sent hall.2
    | some (.logMessage s) => exact ih sent hall.2
    | some .other => exact ih sent hall.2

theorem handshakePhase_error_of_config :
    ∀ (hs : List (Option DMsg)) (sent : SentResponses) (i : Int)
      (secs : List (Option String)), some (.config i secs) ∈ hs →
      (handshakePhase sent hs).2 = .error .attributeError := by
  intro hs
  induction hs with
  | nil => intro sent i secs h; simp at h
  | cons x rest ih =>
    intro sent i secs hmem
    match x with
    | none =>
      rcases List.mem_cons.mp hmem with h | h
      · exact absurd h (by simp)
      · exact ih sent i secs h
    | some (.config j secs2) =>
      show (if transportHasSendResponse then _
            else (sent, Except.error PyErr.attributeError) : SentResponses × _).2 = _
      rw [transport_lacks_send_response]
      rfl
    | some (.publish u ds) =>
      rcases List.mem_cons.mp hmem with h | h
      · exact absurd h (by simp)
      · exact ih sent i secs h
    | some (.logMessage s) =>
      rcases List.mem_cons.mp hmem with h | h
      · exact absurd h (by simp)
      · exact ih sent i secs h
    | some .other =>
      rcases List.mem_cons.mp hmem with h | h
      · exact absurd h (by simp)
      · exact ih sent i secs h

theorem diagLoop_sent (target : String) :
    ∀ (fuel : Nat) (lm : List (Option DMsg)) (sent : SentResponses)
      (best : Option (List Diagnostic)),
      (diagLoop target sent fuel lm best).1 = sent := by
  intro fuel
  induction fuel with
  | zero => intro lm sent best; rfl
  | succ f ih =>
    intro lm sent best
    match lm with
    | [] => exact ih [] sent best
    | none :: rest => exact ih rest sent best
    | some (.config i secs) :: rest =>
      show (if transportHasSendResponse then
              diagLoop target (sent ++ [(i, configReply secs)]) f rest best
            else (sent, Except.error PyErr.attributeError)).1 = sent
      rw [transport_lacks_send_response]
      rfl
    | some (.publish u ds) :: rest =>
      show (if u = target then _ else diagLoop target sent f rest best : SentResponses × _).1 = sent
      by_cases hu : u = target
      · rw [if_pos hu]
        by_cases hb : best = none ∨ best = some []
        · rw [if_pos hb]
          by_cases hd : ds ≠ []
          · rw [if_pos hd]
          · rw [if_neg hd]
            exact ih rest sent (some ds)
        · rw [if_neg hb]
          exact ih rest sent best
      · rw [if_neg hu]
        exact ih rest sent best
    | some (.logMessage s) :: rest => exact ih rest sent best
    | some .other :: rest => exact ih rest sent best

theorem diagLoop_all_benign (target : String) :
    ∀ (fuel : Nat) (lm : List (Option DMsg)) (sent : SentResponses)
      (best : Option (List Diagnostic)), lm.all (benign target) = true →
      diagLoop target sent fuel lm best = (sent, .ok (best.getD [])) := by
  intro fuel
  induction fuel with
  | zero => intro lm sent best _; rfl
  | succ f ih =>
    intro lm sent best hall
    match lm with
    | [] => exact ih [] sent best rfl
    | x :: rest =>
      rw [List.all_cons, Bool.and_eq_true] at hall
      match x with
      | none => exact ih rest sent best hall.2
      | some (.config i secs) => simp [benign] at hall
      | some (.publish u ds) =>
        have hu : ¬(u = target) := by simpa [benign] using hall.1
        show (if u = target then _ else diagLoop target sent f rest best) = _
        rw [if_neg hu]
        exact ih rest sent best hall.2
      | some (.logMessage s) => exact ih rest sent best hall.2
      | some .other => exact ih rest sent best hall.2

theorem diagLoop_benign_front (target : String) :
    ∀ (pres rest : List (Option DMsg)) (fuel : Nat) (sent : SentResponses)
      (best : Option (List Diagnostic)),
      pres.all (benign target) = true → pres.length ≤ fuel →
      diagLoop target sent fuel (pres ++ rest) best
        = diagLoop target sent (fuel - pres.length) rest best := by
  intro pres
  induction pres with
  | nil => intro rest fuel sent best _ _; simp
  | cons x pres2 ih =>
    intro rest fuel sent best hall hlen
    rw [List.all_cons, Bool.and_eq_true] at hall
    match fuel with
    | 0 => simp at hlen
    | f + 1 =>
      have hstep : diagLoop target sent (f + 1) ((x :: pres2) ++ rest) best
          = diagLoop target sent f (pres2 ++ rest) best := by
        match x with
        | none => rfl
        | some (.config i secs) => simp [benign] at hall
        | some (.publish u ds) =>
          have hu : ¬(u = target) := by simpa [benign] using hall.1
          show (if u = target then _ else diagLoop target sent f (pres2 ++ rest) best) = _
          rw [if_neg hu]
        | some (.logMessage s) => rfl
        | some .other => rfl
      rw [hstep, ih rest f sent best hall.2 (by simpa using hlen)]
      have h3 : f + 1 - (x :: pres2).length = f - pres2.length := by
        simp only [List.length_cons]
        omega
      rw [h3]

theorem diagLoop_step_publish (target : String) (sent : SentResponses) (fuel : Nat)
    (rest : List (Option DMsg)) (best : Option (List Diagnostic)) (ds : List Diagnostic) :
    diagLoop target sent (fuel + 1) (some (.publish target ds) :: rest) best
      = if best = none ∨ best = some [] then
          (if ds ≠ [] then (sent, .ok ds) else diagLoop target sent fuel rest (some ds))
        else diagLoop target sent fuel rest best := by
  show (if target = target then
          if best = none ∨ best = some [] then
            (if ds ≠ [] then (sent, Except.ok ds) else diagLoop target sent fuel rest (some ds))
          else diagLoop target sent fuel rest best
        else diagLoop target sent fuel rest best) = _
  rw [if_pos rfl]

/-! ## Claim C1: configuration requests are never answered -/

/-- Claim C1 (code bug): the driver never sends any reply to a
`workspace/configuration` request — `Transport` has no `send_response`
attribute, so the call raises `AttributeError` and the enclosing
`except` returns `[]`.  Conjunct 1: on every input the set of responses
sent is empty.  Conjunct 2: a configuration request during the handshake
aborts the call before `didOpen`, returning `[]` even though a non-empty
publish follows.  Conjunct 3: the same during the publish-await loop. -/
theorem text_document_diagnostic_config_never_answered :
    (∀ cwd p hs lm, (text_document_diagnostic cwd p hs lm).sentResponses = []) ∧
    (text_document_diagnostic ["home"] { absolute := true, comps := ["w", "m.py"] }
        [some (.config 5 [some "python", some "python.analysis", some "zz"])]
        [some (.publish "file:///w/m.py" [{ severity := 1, message := "e" }])]
      = { openedUri? := none, sentResponses := [], diags := [] }) ∧
    (text_document_diagnostic ["home"] { absolute := true, comps := ["w", "m.py"] }
        []
        [some (.config 7 [some "python"]),
         some (.publish "file:///w/m.py" [{ severity := 1, message := "e" }])]
      = { openedUri? := some "file:///w/m.py", sentResponses := [], diags := [] }) := by
  refine ⟨?_, rfl, rfl⟩
  intro cwd p hs lm
  unfold text_document_diagnostic
  have h1 := handshakePhase_sent hs []
  rcases heq : handshakePhase [] hs with ⟨sent, res⟩
  have hsent : sent = [] := by rw [← h1, heq]
  subst hsent
  cases res with
  | error e => rfl
  | ok u =>
    have h2 := diagLoop_sent (targetUriStr cwd p) maxAttempts lm [] none
    rcases heq2 : diagLoop (targetUriStr cwd p) [] maxAttempts lm none with ⟨sent2, res2⟩
    have hsent2 : sent2 = [] := by rw [← h2, heq2]
    subst hsent2
    simp only [heq2]
    cases res2 <;> rfl

/-! ## Claim C6: an empty publish does not short-circuit the await loop -/

/-- Claim C6: when the server publishes an empty diagnostics array for
the target URI and, within the attempt budget, later publishes a
non-empty array for the same URI, the driver returns the non-empty
array — the empty publish never terminates the loop early; and when no
non-empty publish ever arrives, only attempt exhaustion returns the
best-known (empty) list. -/
theorem diagnostics_empty_then_real (cwd : List String) (p : PyPath)
    (hs pre mid : List (Option DMsg)) (ds : List Diagnostic)
    (hhs : hs.all noConfig = true)
    (hpre : pre.all (benign (targetUriStr cwd p)) = true)
    (hmid : mid.all (benign (targetUriStr cwd p)) = true)
    (hds : ds ≠ [])
    (hlen : pre.length + mid.length + 2 ≤ maxAttempts) :
    (text_document_diagnostic cwd p hs
      (pre ++ some (.publish (targetUriStr cwd p) []) ::
        (mid ++ [some (.publish (targetUriStr cwd p) ds)]))).diags = ds ∧
    (text_document_diagnostic cwd p hs
      (pre ++ [some (.publish (targetUriStr cwd p) [])])).diags = [] := by
  have hmax : maxAttempts = 30 := rfl
  obtain ⟨f, hf, hflen⟩ : ∃ f, maxAttempts - pre.length = f + 1 ∧ mid.length + 1 ≤ f :=
    ⟨maxAttempts - pre.length - 1, by omega, by omega⟩
  constructor
  · have hdl : diagLoop (targetUriStr cwd p) [] maxAttempts
        (pre ++ some (.publish (targetUriStr cwd p) []) ::
          (mid ++ [some (.publish (targetUriStr cwd p) ds)])) none
        = ([], Except.ok ds) := by
      rw [diagLoop_benign_front (targetUriStr cwd p) pre _ maxAttempts [] none hpre
        (by omega), hf, diagLoop_step_publish, if_pos (Or.inl rfl), if_neg (by simp)]
      rw [diagLoop_benign_front (targetUriStr cwd p) mid _ f [] (some []) hmid (by omega)]
      obtain ⟨g, hg⟩ : ∃ g, f - mid.length = g + 1 := ⟨f - mid.length - 1, by omega⟩
      rw [hg, diagLoop_step_publish, if_pos (Or.inr rfl), if_pos hds]
    unfold text_document_diagnostic
    rw [handshakePhase_ok_of_noConfig hs [] hhs]
    simp only [hdl]
  · have hdl : diagLoop (targetUriStr cwd p) [] maxAttempts
        (pre ++ [some (.publish (targetUriStr cwd p) [])]) none
        = ([], Except.ok []) := by
      rw [diagLoop_benign_front (targetUriStr cwd p) pre _ maxAttempts [] none hpre
        (by omega), hf, diagLoop_step_publish, if_pos (Or.inl rfl), if_neg (by simp)]
      exact diagLoop_all_benign (targetUriStr cwd p) f [] [] (some []) rfl
    unfold text_document_diagnostic
    rw [handshakePhase_ok_of_noConfig hs [] hhs]
    simp only [hdl]

/-- Witness for `diagnostics_empty_then_real`: a timed-out read before the
empty publish, a log message between it and the real one. -/
theorem diagnostics_empty_then_real_witness :
    (text_document_diagnostic ["home"] { absolute := true, comps := ["w", "m.py"] } []
      ([none] ++ some (.publish (targetUriStr ["home"] { absolute := true, comps := ["w", "m.py"] }) []) ::
        ([some (.logMessage "busy")]
          ++ [some (.publish (targetUriStr ["home"] { absolute := true, comps := ["w", "m.py"] })
                [{ severity := 1, message := "e" }])]))).diags
      = [{ severity := 1, message := "e" }] := by
  exact (diagnostics_empty_then_real ["home"] { absolute := true, comps := ["w", "m.py"] }
    [] [none] [some (.logMessage "busy")] [{ severity := 1, message := "e" }]
    (by decide) (by decide) (by decide) (by decide) (by decide)).1

/-! ## Path and URI lemmas (methods.py lines 110 and 419) -/

theorem string_data_ne_nil (c : String) (hc : c ≠ "") : c.data ≠ [] := by
  intro h
  apply hc
  cases c with
  | mk data =>
    simp only at h
    rw [h]

theorem resolveComps_plain :
    ∀ (l acc : List String), l.all plainComp = true →
      resolveComps acc l = acc.reverse ++ l := by
  intro l
  induction l with
  | nil => intro acc _; simp [resolveComps]
  | cons c rest ih =>
    intro acc hall
    rw [List.all_cons, Bool.and_eq_true] at hall
    have h1 : ¬(c = ".") := by
      intro h
      rw [h] at hall
      simp [plainComp] at hall
    have h2 : ¬(c = "..") := by
      intro h
      rw [h] at hall
      simp [plainComp] at hall
    show (if c = "." then resolveComps acc rest
          else if c = ".." then resolveComps acc.tail rest
          else resolveComps (c :: acc) rest) = acc.reverse ++ c :: rest
    rw [if_neg h1, if_neg h2, ih (c :: acc) hall.2]
    simp

theorem compMeasure_cons (c : String) (l : List String) :
    compMeasure (c :: l) = c.length + 1 + compMeasure l := by
  show (c.length + 1) + (l.map (fun c => c.length + 1)).sum = _
  rfl

theorem compMeasure_tail_le (l : List String) : compMeasure l.tail ≤ compMeasure l := by
  cases l with
  | nil => exact Nat.le_refl _
  | cons c rest =>
    rw [List.tail_cons, compMeasure_cons]
    omega

theorem compMeasure_reverse (l : List String) : compMeasure l.reverse = compMeasure l := by
  unfold compMeasure
  rw [List.map_reverse, List.sum_reverse]

theorem resolveComps_measure_le :
    ∀ (l acc : List String),
      compMeasure (resolveComps acc l) ≤ compMeasure acc + compMeasure l := by
  intro l
  induction l with
  | nil =>
    intro acc
    show compMeasure acc.reverse ≤ compMeasure acc + compMeasure []
    rw [compMeasure_reverse]
    simp [compMeasure]
  | cons c rest ih =>
    intro acc
    show compMeasure (if c = "." then resolveComps acc rest
          else if c = ".." then resolveComps acc.tail rest
          else resolveComps (c :: acc) rest) ≤ _
    rw [compMeasure_cons]
    by_cases h1 : c = "."
    · rw [if_pos h1]
      have := ih acc
      omega
    · rw [if_neg h1]
      by_cases h2 : c = ".."
      · rw [if_pos h2]
        have := ih acc.tail
        have ht := compMeasure_tail_le acc
        omega
      · rw [if_neg h2]
        have := ih (c :: acc)
        rw [compMeasure_cons] at this
        omega

theorem resolveComps_measure_lt :
    ∀ (l acc : List String), l.all plainComp = false →
      compMeasure (resolveComps acc l) < compMeasure acc + compMeasure l := by
  intro l
  induction l with
  | nil => intro acc h; simp at h
  | cons c rest ih =>
    intro acc hall
    show compMeasure (if c = "." then resolveComps acc rest
          else if c = ".." then resolveComps acc.tail rest
          else resolveComps (c :: acc) rest) < _
    rw [compMeasure_cons]
    by_cases h1 : c = "."
    · rw [if_pos h1]
      have := resolveComps_measure_le rest acc
      have hlen : c.length = 1 := by rw [h1]; rfl
      omega
    · rw [if_neg h1]
      by_cases h2 : c = ".."
      · rw [if_pos h2]
        have := resolveComps_measure_le rest acc.tail
        have ht := compMeasure_tail_le acc
        omega
      · rw [if_neg h2]
        have hc : plainComp c = true := by simp [plainComp, h1, h2]
        have hrest : rest.all plainComp = false := by
          rw [List.all_cons, hc] at hall
          simpa using hall
        have := ih (c :: acc) hrest
        rw [compMeasure_cons] at this
        omega

theorem joinComps_length :
    ∀ l : List String, l ≠ [] → (joinComps l).length + 1 = compMeasure l := by
  intro l
  induction l with
  | nil => intro h; exact absurd rfl h
  | cons c rest ih =>
    intro _
    cases rest with
    | nil => simp [joinComps, compMeasure]
    | cons c2 rest2 =>
      have h2 := ih (by simp)
      show ((c ++ "/") ++ joinComps (c2 :: rest2)).length + 1 = _
      rw [String.length_append, String.length_append, compMeasure_cons]
      have : ("/" : String).length = 1 := rfl
      omega

theorem joinComps_head (c : String) (rest : List String) (hc : c ≠ "") :
    (joinComps (c :: rest)).data.head? = c.data.head? := by
  cases rest with
  | nil => rfl
  | cons c2 rest2 =>
    show ((c ++ "/") ++ joinComps (c2 :: rest2)).data.head? = _
    rw [String.data_append, String.data_append]
    cases hd : c.data with
    | nil => exact absurd hd (string_data_ne_nil c hc)
    | cons a as => simp

/-- The URI a document is opened under equals the URI the diagnostics
loop captures under exactly when the path is absolute and already in
resolved (normal) form. -/
theorem openedUri_eq_targetUri_iff (cwd : List String) (p : PyPath)
    (hp : p.comps.all goodComp = true) :
    openedUriStr p = targetUriStr cwd p
      ↔ (p.absolute = true ∧ p.comps.all plainComp = true) := by
  constructor
  · intro heq
    by_cases habs : p.absolute = true
    · refine ⟨habs, ?_⟩
      by_cases hplain : p.comps.all plainComp = true
      · exact hplain
      · exfalso
        have hplain2 : p.comps.all plainComp = false := Bool.eq_false_iff.mpr hplain
        have hlt := resolveComps_measure_lt p.comps [] hplain2
        have h0 : compMeasure ([] : List String) = 0 := rfl
        rw [h0, Nat.zero_add] at hlt
        have hne : p.comps ≠ [] := by
          intro h
          rw [h] at hplain2
          simp at hplain2
        have hlenC := joinComps_length p.comps hne
        obtain ⟨c0, hc0mem, _⟩ := List.all_eq_false.mp hplain2
        have hc0good : goodComp c0 = true := by
          rw [List.all_eq_true] at hp
          exact hp c0 hc0mem
        have hc0len : 1 ≤ c0.length := by
          have h1 : c0 ≠ "" := by
            intro h
            rw [h] at hc0good
            simp [goodComp] at hc0good
          have := string_data_ne_nil c0 h1
          cases hc : c0.data with
          | nil => exact absurd hc this
          | cons a as =>
            show 1 ≤ c0.data.length
            rw [hc]
            simp
        have hmge : 2 ≤ compMeasure p.comps := by
          obtain ⟨pre2, post2, hsplit⟩ := List.append_of_mem hc0mem
          rw [hsplit]
          clear hsplit
          induction pre2 with
          | nil => rw [List.nil_append, compMeasure_cons]; omega
          | cons x xs ihp => rw [List.cons_append, compMeasure_cons]; omega
        have hlen := congrArg String.length heq
        unfold openedUriStr targetUriStr rawPathStr asUri resolvedComps at hlen
        rw [habs] at hlen
        simp only [if_true, List.nil_append] at hlen
        rw [String.length_append, String.length_append, String.length_append,
          String.length_append] at hlen
        by_cases hR : resolveComps [] p.comps = []
        · rw [hR] at hlen hlt
          have hj0 : (joinComps ([] : List String)).length = 0 := rfl
          rw [hj0] at hlen
          rw [h0] at hlt
          omega
        · have hlenR := joinComps_length _ hR
          omega
    · exfalso
      have hdata := congrArg String.data heq
      unfold openedUriStr targetUriStr rawPathStr asUri resolvedComps at hdata
      have habs2 : p.absolute = false := Bool.eq_false_iff.mpr habs
      rw [habs2] at hdata
      simp only [Bool.false_eq_true, if_false] at hdata
      rw [String.data_append, String.data_append, String.data_append,
        String.data_append] at hdata
      have hcancel := List.append_cancel_left hdata
      have hempty : ("" : String).data = [] := rfl
      rw [hempty, List.nil_append] at hcancel
      have hslash : ("/" : String).data = ['/'] := rfl
      rw [hslash] at hcancel
      cases hcomps : p.comps with
      | nil =>
        rw [hcomps] at hcancel
        have : joinComps ([] : List String) = "" := rfl
        rw [this, hempty] at hcancel
        simp at hcancel
      | cons c0 rest =>
        have hc0good : goodComp c0 = true := by
          rw [List.all_eq_true] at hp
          exact hp c0 (by rw [hcomps]; simp)
        have hc0ne : c0 ≠ "" := by
          intro h
          rw [h] at hc0good
          simp [goodComp] at hc0good
        have hhead := joinComps_head c0 rest hc0ne
        rw [← hcomps, hcancel] at hhead
        simp at hhead
        cases hcd : c0.data with
        | nil => exact absurd hcd (string_data_ne_nil c0 hc0ne)
        | cons a as =>
          rw [hcd] at hhead
          simp at hhead
          have hsafe : uriSafeChar a = true := by
            have := hc0good
            rw [goodComp, Bool.and_eq_true, List.all_eq_true] at this
            exact this.2 a (by rw [hcd]; simp)
          rw [← hhead] at hsafe
          simp [uriSafeChar] at hsafe
  · rintro ⟨habs, hplain⟩
    unfold openedUriStr targetUriStr rawPathStr asUri resolvedComps
    rw [habs]
    simp only [if_true, List.nil_append]
    rw [resolveComps_plain p.comps [] hplain]
    rfl

theorem underOpened_benign (opened target : String) (hne : opened ≠ target) :
    ∀ x, underOpened opened x = true → benign target x = true := by
  intro x hx
  match x with
  | none => rfl
  | some (.config i secs) => simp [underOpened] at hx
  | some (.publish u ds) =>
    simp only [underOpened, decide_eq_true_eq] at hx
    simp only [benign, decide_eq_true_eq]
    rw [hx]
    exact hne
  | some (.logMessage s) => rfl
  | some .other => rfl

/-- Claim C10: the document is opened under `f"file://{file_path}"` but
publishes are captured only under `Path(file_path).resolve().as_uri()`;
the two URIs coincide exactly when the path is absolute and fully
resolved, and for any other path every publish delivered under the
opened URI is ignored, so the call returns the empty list.  (The path
model omits symlinks and percent-quoting; `goodComp` restricts
components to where that abstraction is exact.) -/
theorem diagnostic_uri_mismatch (cwd : List String) (p : PyPath)
    (hp : p.comps.all goodComp = true) :
    (openedUriStr p = targetUriStr cwd p
      ↔ (p.absolute = true ∧ p.comps.all plainComp = true)) ∧
    (∀ hs lm, ¬(p.absolute = true ∧ p.comps.all plainComp = true) →
      hs.all noConfig = true →
      lm.all (underOpened (openedUriStr p)) = true →
      (text_document_diagnostic cwd p hs lm).diags = [] ∧
      (text_document_diagnostic cwd p hs lm).openedUri? = some (openedUriStr p)) := by
  have hiff := openedUri_eq_targetUri_iff cwd p hp
  refine ⟨hiff, ?_⟩
  intro hs lm hnorm hhs hunder
  have hne : openedUriStr p ≠ targetUriStr cwd p := fun h => hnorm (hiff.mp h)
  have hall2 : lm.all (benign (targetUriStr cwd p)) = true := by
    rw [List.all_eq_true] at hunder ⊢
    exact fun x hx => underOpened_benign _ _ hne x (hunder x hx)
  have hdl := diagLoop_all_benign (targetUriStr cwd p) maxAttempts lm [] none hall2
  unfold text_document_diagnostic
  rw [handshakePhase_ok_of_noConfig hs [] hhs]
  simp only [hdl]
  exact ⟨rfl, trivial⟩

/-- Witness for `diagnostic_uri_mismatch`: the relative path `a/b.py`,
where the server publishes a non-empty list under the opened URI
`file://a/b.py` and the call still returns `[]`. -/
theorem diagnostic_uri_mismatch_witness :
    (text_document_diagnostic ["home"] { absolute := false, comps := ["a", "b.py"] }
      [] [some (.publish (openedUriStr { absolute := false, comps := ["a", "b.py"] })
            [{ severity := 1, message := "e" }])]).diags = [] := by
  exact ((diagnostic_uri_mismatch ["home"] { absolute := false, comps := ["a", "b.py"] }
    (by decide)).2 []
    [some (.publish (openedUriStr { absolute := false, comps := ["a", "b.py"] })
      [{ severity := 1, message := "e" }])]
    (by decide) (by decide) (by decide)).1

/-! ## Wire codec lemmas (transport.py lines 68-112 and 128-213) -/

theorem natToDecAux_digits :
    ∀ fuel n, n < fuel → ∀ b ∈ natToDecAux fuel n, 48 ≤ b ∧ b ≤ 57 := by
  intro fuel
  induction fuel with
  | zero => intro n hn; omega
  | succ f ih =>
    intro n hn b hb
    by_cases h10 : n < 10
    · rw [natToDecAux, if_pos h10] at hb
      simp at hb
      omega
    · rw [natToDecAux, if_neg h10] at hb
      rcases List.mem_append.mp hb with h | h
      · exact ih (n / 10) (by omega) b h
      · simp at h
        omega

theorem natToDecAux_ne_nil (fuel n : Nat) (hf : 0 < fuel) :
    natToDecAux fuel n ≠ [] := by
  match fuel with
  | f + 1 =>
    rw [natToDecAux]
    by_cases h10 : n < 10
    · rw [if_pos h10]; simp
    · rw [if_neg h10]; simp

theorem natToDecAux_foldl :
    ∀ fuel n, n < fuel → ∀ acc,
      (natToDecAux fuel n).foldl (fun a b => a * 10 + (b - 48)) acc
        = acc * 10 ^ (natToDecAux fuel n).length + n := by
  intro fuel
  induction fuel with
  | zero => intro n hn; omega
  | succ f ih =>
    intro n hn acc
    by_cases h10 : n < 10
    · rw [natToDecAux, if_pos h10]
      show acc * 10 + (48 + n - 48) = acc * 10 ^ 1 + n
      rw [pow_one]
      omega
    · rw [natToDecAux, if_neg h10]
      rw [List.foldl_append]
      rw [ih (n / 10) (by omega) acc]
      show (acc * 10 ^ (natToDecAux f (n / 10)).length + n / 10) * 10 + (48 + n % 10 - 48)
          = acc * 10 ^ (natToDecAux f (n / 10) ++ [48 + n % 10]).length + n
      rw [List.length_append, List.length_cons, List.length_nil, pow_succ]
      have hqr : n / 10 * 10 + n % 10 = n := by omega
      have h48 : 48 + n % 10 - 48 = n % 10 := by omega
      rw [h48]
      calc (acc * 10 ^ (natToDecAux f (n / 10)).length + n / 10) * 10 + n % 10
          = acc * (10 ^ (natToDecAux f (n / 10)).length * 10) + (n / 10 * 10 + n % 10) := by ring
        _ = acc * (10 ^ (natToDecAux f (n / 10)).length * 10) + n := by rw [hqr]

theorem parseDec_natToDec (n : Nat) : parseDecDigits (natToDecDigits n) = some n := by
  unfold parseDecDigits natToDecDigits
  have hne : natToDecAux (n + 1) n ≠ [] := natToDecAux_ne_nil _ _ (by omega)
  have hdig : (natToDecAux (n + 1) n).all (fun b => decide (48 ≤ b ∧ b ≤ 57)) = true := by
    rw [List.all_eq_true]
    intro b hb
    exact decide_eq_true (natToDecAux_digits (n + 1) n (by omega) b hb)
  rw [if_pos ⟨hne, hdig⟩]
  rw [natToDecAux_foldl (n + 1) n (by omega) 0]
  simp

theorem findSep_append :
    ∀ (h : List Nat) (b : List Nat), (∀ x ∈ h, x ≠ 13) →
      findSep (h ++ ([13, 10, 13, 10] ++ b)) = some h.length := by
  intro h
  induction h with
  | nil =>
    intro b _
    show findSep (13 :: 10 :: 13 :: 10 :: b) = some 0
    rw [findSep]
    rw [if_pos (show List.take 4 (13 :: 10 :: 13 :: 10 :: b) = [13, 10, 13, 10] from rfl)]
  | cons x h2 ih =>
    intro b hall
    have hx : x ≠ 13 := hall x (by simp)
    rw [List.cons_append, findSep]
    rw [if_neg ?hcond]
    case hcond =>
      intro hEq
      have hEq2 : x :: (h2 ++ ([13, 10, 13, 10] ++ b)).take 3 = [13, 10, 13, 10] := hEq
      injection hEq2 with h1 _
      exact hx h1
    rw [ih b (fun y hy => hall y (by simp [hy]))]
    rfl

theorem readHeaderLoop_one (chunk : List Nat) (rest : List (List Nat))
    (hc : chunk ≠ []) (hsep : hasSep chunk = true) :
    readHeaderLoop [] (chunk :: rest) = some (chunk, rest) := by
  have hno : hasSep ([] : List Nat) = false := rfl
  rw [readHeaderLoop, hno]
  rw [if_neg (by simp), if_neg hc, List.nil_append]
  cases rest with
  | nil => rw [readHeaderLoop, hsep]; rfl
  | cons c2 r2 => rw [readHeaderLoop, hsep]; rfl

theorem splitOnCRLF_no13 :
    ∀ l : List Nat, (∀ x ∈ l, x ≠ 13) → splitOnCRLF l = [l] := by
  intro l
  induction l with
  | nil => intro _; rfl
  | cons b r ih =>
    intro hall
    have hb : b ≠ 13 := hall b (by simp)
    rw [splitOnCRLF.eq_def]
    split
    · rename_i heq
      exact absurd heq (by simp)
    · rename_i heq
      injection heq with h1 _
      exact absurd h1 hb
    · rename_i heq2
      injection heq2 with h1 h2
      subst h1
      subst h2
      rw [ih (fun y hy => hall y (by simp [hy]))]

theorem splitFirstColon_append :
    ∀ (k v : List Nat), (∀ x ∈ k, x ≠ 58) →
      splitFirstColon (k ++ 58 :: v) = some (k, v) := by
  intro k
  induction k with
  | nil =>
    intro v _
    show splitFirstColon (58 :: v) = some ([], v)
    rw [splitFirstColon, if_pos rfl]
  | cons x k2 ih =>
    intro v hall
    have hx : x ≠ 58 := hall x (by simp)
    rw [List.cons_append, splitFirstColon, if_neg hx,
      ih v (fun y hy => hall y (by simp [hy]))]
    rfl

theorem dropWhile_no_space (l : List Nat) (h : ∀ x ∈ l, isSpaceByte x = false) :
    l.dropWhile isSpaceByte = l := by
  cases l with
  | nil => rfl
  | cons x r =>
    have := h x (by simp)
    rw [List.dropWhile_cons_of_neg (by rw [this]; simp)]

theorem stripBytes_space_digits (l : List Nat) (hd : ∀ x ∈ l, 48 ≤ x ∧ x ≤ 57) :
    stripBytes (32 :: l) = l := by
  have hns : ∀ x ∈ l, isSpaceByte x = false := by
    intro x hx
    have := hd x hx
    simp [isSpaceByte]
    omega
  unfold stripBytes
  rw [List.dropWhile_cons_of_pos (by simp [isSpaceByte])]
  rw [dropWhile_no_space l hns]
  rw [dropWhile_no_space l.reverse (fun x hx => hns x (List.mem_reverse.mp hx))]
  exact List.reverse_reverse l

theorem stripBytes_digits (l : List Nat) (hd : ∀ x ∈ l, 48 ≤ x ∧ x ≤ 57) :
    stripBytes l = l := by
  have hns : ∀ x ∈ l, isSpaceByte x = false := by
    intro x hx
    have := hd x hx
    simp [isSpaceByte]
    omega
  unfold stripBytes
  rw [dropWhile_no_space l hns]
  rw [dropWhile_no_space l.reverse (fun x hx => hns x (List.mem_reverse.mp hx))]
  exact List.reverse_reverse l

/-- The `Content-Length` header produced by `encodeMessage` parses back to
the byte count it was written with. -/
theorem contentLengthOf_encode (n : Nat) :
    contentLengthOf (("Content-Length: ".data.map Char.toNat) ++ natToDecDigits n)
      = some n := by
  have hdig : ∀ x ∈ natToDecDigits n, 48 ≤ x ∧ x ≤ 57 :=
    fun x hx => natToDecAux_digits (n + 1) n (by omega) x hx
  have hsplit : ("Content-Length: ".data.map Char.toNat)
      = ("Content-Length".data.map Char.toNat) ++ [58, 32] := by decide
  have h13 : ∀ x ∈ ("Content-Length: ".data.map Char.toNat) ++ natToDecDigits n, x ≠ 13 := by
    intro x hx
    rcases List.mem_append.mp hx with h | h
    · have hc : ∀ y ∈ ("Content-Length: ".data.map Char.toNat), y ≠ 13 := by decide
      exact hc x h
    · have := hdig x h
      omega
  have hone := splitOnCRLF_no13 _ h13
  have hcolon : splitFirstColon
      (("Content-Length: ".data.map Char.toNat) ++ natToDecDigits n)
      = some (("Content-Length".data.map Char.toNat), 32 :: natToDecDigits n) := by
    rw [hsplit, List.append_assoc]
    show splitFirstColon (("Content-Length".data.map Char.toNat) ++ 58 :: (32 :: natToDecDigits n)) = _
    rw [splitFirstColon_append _ _ (by decide)]
  have hheaders : headersOf (("Content-Length: ".data.map Char.toNat) ++ natToDecDigits n)
      = [("content-length".data.map Char.toNat, natToDecDigits n)] := by
    unfold headersOf
    rw [hone]
    show (match splitFirstColon (("Content-Length: ".data.map Char.toNat) ++ natToDecDigits n) with
          | none => ([] : List (List Nat × List Nat))
          | some (k, v) => [] ++ [((stripBytes k).map lowerByte, stripBytes v)]) = _
    rw [hcolon]
    show [] ++ [((stripBytes ("Content-Length".data.map Char.toNat)).map lowerByte,
      stripBytes (32 :: natToDecDigits n))] = _
    rw [stripBytes_space_digits _ hdig]
    rw [show (stripBytes ("Content-Length".data.map Char.toNat)).map lowerByte
        = "content-length".data.map Char.toNat from by decide]
    rfl
  unfold contentLengthOf
  rw [hheaders]
  show parseDecDigits ((lookupLast ("content-length".data.map Char.toNat)
    [("content-length".data.map Char.toNat, natToDecDigits n)]).getD [48]) = some n
  rw [show lookupLast ("content-length".data.map Char.toNat)
      [("content-length".data.map Char.toNat, natToDecDigits n)]
      = some (natToDecDigits n) from by
    rw [lookupLast]
    rw [show lookupLast ("content-length".data.map Char.toNat) [] = none from rfl]
    rw [if_pos rfl]]
  show parseDecDigits (natToDecDigits n) = some n
  exact parseDec_natToDec n

/-- One frame whose header parses to the body length decodes to exactly
the body; bytes past the body that arrived in the same chunk are
dropped, while undelivered chunks (`rest`) remain readable. -/
theorem readResponseBytes_general (hd body extra : List Nat) (rest : List (List Nat))
    (h13 : ∀ x ∈ hd, x ≠ 13)
    (hcl : contentLengthOf hd = some body.length)
    (hpos : 0 < body.length) :
    readResponseBytes ((hd ++ ([13, 10, 13, 10] ++ (body ++ extra))) :: rest)
      = (some body, rest) := by
  set chunk := hd ++ ([13, 10, 13, 10] ++ (body ++ extra)) with hchunk
  have hfind : findSep chunk = some hd.length := findSep_append hd (body ++ extra) h13
  have hne : chunk ≠ [] := by
    rw [hchunk]
    intro h
    have := congrArg List.length h
    simp at this
  have hsep : hasSep chunk = true := by rw [hasSep, hfind]; rfl
  have hhl := readHeaderLoop_one chunk rest hne hsep
  have htake : chunk.take hd.length = hd := by
    rw [hchunk]
    exact List.take_left hd _
  have hdrop : chunk.drop (hd.length + 4) = body ++ extra := by
    rw [hchunk]
    rw [show hd ++ ([13, 10, 13, 10] ++ (body ++ extra))
        = (hd ++ [13, 10, 13, 10]) ++ (body ++ extra) from by rw [List.append_assoc]]
    rw [show hd.length + 4 = (hd ++ [13, 10, 13, 10]).length from by simp]
    exact List.drop_left _ _
  obtain ⟨m, hm⟩ : ∃ m, body.length = m + 1 := ⟨body.length - 1, by omega⟩
  rw [hm] at hcl
  have hbl : readBodyLoop (m + 1) (body ++ extra) rest = some (body ++ extra, rest) := by
    have hlen : (body ++ extra).length ≥ m + 1 := by
      rw [List.length_append]
      omega
    cases rest with
    | nil => rw [readBodyLoop, if_pos hlen]
    | cons c2 r2 => rw [readBodyLoop, if_pos hlen]
  have htakeBody : (body ++ extra).take (m + 1) = body := by
    rw [← hm]
    exact List.take_left body extra
  unfold readResponseBytes
  simp only [hhl, hfind, htake, hdrop, hcl, hbl, htakeBody]

theorem utf8EncodeChar_ne_nil (c : Char) : utf8EncodeChar c ≠ [] := by
  unfold utf8EncodeChar
  split_ifs <;> simp

theorem utf8Bytes_ne_nil (s : String) (h : s ≠ "") : utf8Bytes s ≠ [] := by
  have hd := string_data_ne_nil s h
  unfold utf8Bytes
  cases hc : s.data with
  | nil => exact absurd hc hd
  | cons c cs =>
    rw [List.flatMap_cons]
    intro hx
    rcases List.append_eq_nil.mp hx with ⟨h1, _⟩
    exact utf8EncodeChar_ne_nil c h1

/-- Specialisation of the frame lemma to `encodeMessage`, possibly
with extra bytes of the next frame in the same chunk. -/
theorem readResponseBytes_encode (s : String) (extra : List Nat) (rest : List (List Nat))
    (hs : s ≠ "") :
    readResponseBytes ((encodeMessage s ++ extra) :: rest) = (some (utf8Bytes s), rest) := by
  have hassoc : encodeMessage s ++ extra
      = (("Content-Length: ".data.map Char.toNat) ++ natToDecDigits (utf8Bytes s).length)
        ++ ([13, 10, 13, 10] ++ (utf8Bytes s ++ extra)) := by
    unfold encodeMessage
    simp only [List.append_assoc]
  rw [hassoc]
  refine readResponseBytes_general _ _ _ _ ?_ (contentLengthOf_encode _) ?_
  · intro x hx
    rcases List.mem_append.mp hx with h | h
    · have hc : ∀ y ∈ ("Content-Length: ".data.map Char.toNat), y ≠ 13 := by decide
      exact hc x h
    · have := natToDecAux_digits ((utf8Bytes s).length + 1) (utf8Bytes s).length
        (by omega) x h
      omega
  · have := utf8Bytes_ne_nil s hs
    cases h : utf8Bytes s with
    | nil => exact absurd h this
    | cons b bs => simp [h]

theorem char_toNat_lt (c : Char) : c.toNat < 1114112 := by
  have h := c.valid
  rcases h with h | ⟨h1, h2⟩
  · unfold Char.toNat
    omega
  · unfold Char.toNat
    omega

theorem char_toNat_not_surrogate (c : Char) :
    ¬(55296 ≤ c.toNat ∧ c.toNat < 57344) := by
  have h := c.valid
  rcases h with h | ⟨h1, h2⟩
  · unfold Char.toNat
    omega
  · unfold Char.toNat
    omega

/-- Decoding inverts encoding for one character. -/
theorem utf8DecodeAux_encodeChar (fuel : Nat) (c : Char) (r : List Nat) :
    utf8DecodeAux (fuel + 1) (utf8EncodeChar c ++ r)
      = (utf8DecodeAux fuel r).map (fun cs => c :: cs) := by
  have hlt := char_toNat_lt c
  have hsur := char_toNat_not_surrogate c
  have hofn : Char.ofNat c.toNat = c := Char.ofNat_toNat c
  unfold utf8EncodeChar
  by_cases h1 : c.toNat < 128
  · rw [if_pos h1, List.cons_append, List.nil_append]
    rw [utf8DecodeAux]
    have hone : utf8DecodeOne c.toNat r = some (c, r) := by
      unfold utf8DecodeOne
      rw [if_pos h1, hofn]
    rw [hone]
  · rw [if_neg h1]
    by_cases h2 : c.toNat < 2048
    · rw [if_pos h2]
      rw [show ([192 + c.toNat / 64, 128 + c.toNat % 64] : List Nat) ++ r
          = (192 + c.toNat / 64) :: ((128 + c.toNat % 64) :: r) from rfl]
      rw [utf8DecodeAux]
      have hone : utf8DecodeOne (192 + c.toNat / 64) ((128 + c.toNat % 64) :: r)
          = some (c, r) := by
        unfold utf8DecodeOne
        rw [if_neg (by omega), if_neg (by omega), if_pos (by omega)]
        show (if 128 ≤ 128 + c.toNat % 64 ∧ 128 + c.toNat % 64 < 192 then
            some (Char.ofNat ((192 + c.toNat / 64 - 192) * 64 + (128 + c.toNat % 64 - 128)), r)
          else none) = some (c, r)
        rw [if_pos ⟨by omega, by omega⟩]
        have harg : (192 + c.toNat / 64 - 192) * 64 + (128 + c.toNat % 64 - 128)
            = c.toNat := by omega
        rw [harg, hofn]
      rw [hone]
    · rw [if_neg h2]
      by_cases h3 : c.toNat < 65536
      · rw [if_pos h3]
        rw [show ([224 + c.toNat / 4096, 128 + c.toNat / 64 % 64, 128 + c.toNat % 64]
            : List Nat) ++ r
            = (224 + c.toNat / 4096)
              :: ((128 + c.toNat / 64 % 64) :: ((128 + c.toNat % 64) :: r)) from rfl]
        rw [utf8DecodeAux]
        have hone : utf8DecodeOne (224 + c.toNat / 4096)
            ((128 + c.toNat / 64 % 64) :: ((128 + c.toNat % 64) :: r)) = some (c, r) := by
          unfold utf8DecodeOne
          rw [if_neg (by omega), if_neg (by omega), if_neg (by omega), if_pos (by omega)]
          show (if 128 ≤ 128 + c.toNat / 64 % 64 ∧ 128 + c.toNat / 64 % 64 < 192
                  ∧ 128 ≤ 128 + c.toNat % 64 ∧ 128 + c.toNat % 64 < 192 then
              if 2048 ≤ (224 + c.toNat / 4096 - 224) * 4096
                    + (128 + c.toNat / 64 % 64 - 128) * 64 + (128 + c.toNat % 64 - 128)
                  ∧ ¬(55296 ≤ (224 + c.toNat / 4096 - 224) * 4096
                        + (128 + c.toNat / 64 % 64 - 128) * 64 + (128 + c.toNat % 64 - 128)
                      ∧ (224 + c.toNat / 4096 - 224) * 4096
                        + (128 + c.toNat / 64 % 64 - 128) * 64 + (128 + c.toNat % 64 - 128)
                        < 57344) then
                some (Char.ofNat ((224 + c.toNat / 4096 - 224) * 4096
                  + (128 + c.toNat / 64 % 64 - 128) * 64 + (128 + c.toNat % 64 - 128)), r)
              else none
            else none) = some (c, r)
          have harg : (224 + c.toNat / 4096 - 224) * 4096
              + (128 + c.toNat / 64 % 64 - 128) * 64 + (128 + c.toNat % 64 - 128)
              = c.toNat := by omega
          rw [harg]
          rw [if_pos ⟨by omega, by omega, by omega, by omega⟩]
          rw [if_pos ⟨by omega, hsur⟩]
          rw [hofn]
        rw [hone]
      · rw [if_neg h3]
        rw [show ([240 + c.toNat / 262144, 128 + c.toNat / 4096 % 64, 128 + c.toNat / 64 % 64,
            128 + c.toNat % 64] : List Nat) ++ r
            = (240 + c.toNat / 262144) :: ((128 + c.toNat / 4096 % 64)
              :: ((128 + c.toNat / 64 % 64) :: ((128 + c.toNat % 64) :: r))) from rfl]
        rw [utf8DecodeAux]
        have hone : utf8DecodeOne (240 + c.toNat / 262144)
            ((128 + c.toNat / 4096 % 64) :: ((128 + c.toNat / 64 % 64)
              :: ((128 + c.toNat % 64) :: r))) = some (c, r) := by
          unfold utf8DecodeOne
          rw [if_neg (by omega), if_neg (by omega), if_neg (by omega), if_neg (by omega),
            if_pos (by omega)]
          show (if 128 ≤ 128 + c.toNat / 4096 % 64 ∧ 128 + c.toNat / 4096 % 64 < 192
                  ∧ 128 ≤ 128 + c.toNat / 64 % 64 ∧ 128 + c.toNat / 64 % 64 < 192
                  ∧ 128 ≤ 128 + c.toNat % 64 ∧ 128 + c.toNat % 64 < 192 then
              if 65536 ≤ (240 + c.toNat / 262144 - 240) * 262144
                    + (128 + c.toNat / 4096 % 64 - 128) * 4096
                    + (128 + c.toNat / 64 % 64 - 128) * 64 + (128 + c.toNat % 64 - 128)
                  ∧ (240 + c.toNat / 262144 - 240) * 262144
                    + (128 + c.toNat / 4096 % 64 - 128) * 4096
                    + (128 + c.toNat / 64 % 64 - 128) * 64 + (128 + c.toNat % 64 - 128)
                    < 1114112 then
                some (Char.ofNat ((240 + c.toNat / 262144 - 240) * 262144
                  + (128 + c.toNat / 4096 % 64 - 128) * 4096
                  + (128 + c.toNat / 64 % 64 - 128) * 64 + (128 + c.toNat % 64 - 128)), r)
              else none
            else none) = some (c, r)
          have harg : (240 + c.toNat / 262144 - 240) * 262144
              + (128 + c.toNat / 4096 % 64 - 128) * 4096
              + (128 + c.toNat / 64 % 64 - 128) * 64 + (128 + c.toNat % 64 - 128)
              = c.toNat := by omega
          rw [harg]
          rw [if_pos ⟨by omega, by omega, by omega, by omega, by omega, by omega⟩]
          rw [if_pos ⟨by omega, by omega⟩]
          rw [hofn]
        rw [hone]

theorem utf8DecodeAux_chars :
    ∀ (cs : List Char) (fuel : Nat), cs.length ≤ fuel →
      utf8DecodeAux fuel (cs.flatMap utf8EncodeChar) = some cs := by
  intro cs
  induction cs with
  | nil =>
    intro fuel _
    cases fuel <;> rfl
  | cons c cs2 ih =>
    intro fuel hf
    match fuel with
    | f + 1 =>
      rw [List.flatMap_cons, utf8DecodeAux_encodeChar f c _, ih f (by simpa using hf)]
      rfl

theorem flatMap_enc_length (cs : List Char) :
    cs.length ≤ (cs.flatMap utf8EncodeChar).length := by
  induction cs with
  | nil => simp
  | cons c cs2 ih =>
    rw [List.flatMap_cons, List.length_append]
    have h1 : 1 ≤ (utf8EncodeChar c).length := by
      cases h : utf8EncodeChar c with
      | nil => exact absurd h (utf8EncodeChar_ne_nil c)
      | cons b bs => simp
    simp only [List.length_cons]
    omega

/-- Decoding inverts encoding for a whole string. -/
theorem utf8DecodeList_bytes (s : String) :
    utf8DecodeList (utf8Bytes s) = some s.data := by
  unfold utf8DecodeList utf8Bytes
  exact utf8DecodeAux_chars s.data _ (flatMap_enc_length s.data)

/-- One `_read_response` call on a frame of `s`, possibly with extra
bytes in the same chunk (dropped) and further chunks (kept). -/
theorem readMessageText_frame (s : String) (extra : List Nat) (rest : List (List Nat))
    (hs : s ≠ "") :
    readMessageText ((encodeMessage s ++ extra) :: rest) = (some s, rest) := by
  unfold readMessageText
  simp only [readResponseBytes_encode s extra rest hs, utf8DecodeList_bytes s]

/-- Claim C4: decoding the bytes produced by encoding a message yields
the message again — the header carries the UTF-8 byte length, so this
holds also for bodies whose byte count differs from their character
count. -/
theorem framing_round_trip (s : String) (hs : s ≠ "") :
    readMessageText [encodeMessage s] = (some s, []) := by
  have h := readMessageText_frame s [] [] hs
  rw [List.append_nil] at h
  exact h

/-- Witness for `framing_round_trip` at a body with multi-byte UTF-8
characters: five bytes but only two characters. -/
theorem framing_round_trip_witness :
    (utf8Bytes "é日").length = 5 ∧ ("é日" : String).data.length = 2 ∧
    readMessageText [encodeMessage "é日"] = (some "é日", []) := by
  exact ⟨by decide, by decide, framing_round_trip "é日" (by decide)⟩

/-- Claim C5 counterexample: two well-formed frames delivered
back-to-back in a single read.  The first message decodes, but the
bytes of the second frame are dropped with the local buffer of `_read_response`
(transport.py lines 131 and 200): nothing remains to read, and the next
decode returns nothing — the second message is never decoded, so data
IS lost across calls. -/
theorem framing_second_frame_lost :
    readMessageText [encodeMessage "abc" ++ encodeMessage "de"] = (some "abc", []) ∧
    readMessageText (readMessageText [encodeMessage "abc" ++ encodeMessage "de"]).2
      = (none, []) := by
  exact ⟨rfl, rfl⟩

/-- Claim C5 (amended): the decoder reads exactly Content-Length body
bytes and the current message decodes correctly even when extra bytes of
the next frame arrived in the same read; but those extra bytes are
discarded, not preserved, so the second of two frames delivered in one
read is lost, while frames in reads not yet consumed remain readable by
the next call. -/
theorem framing_extra_bytes (s1 s2 : String) (h1 : s1 ≠ "") (h2 : s2 ≠ "") :
    readMessageText [encodeMessage s1 ++ encodeMessage s2] = (some s1, []) ∧
    readMessageText [encodeMessage s1, encodeMessage s2] = (some s1, [encodeMessage s2]) ∧
    readMessageText (readMessageText [encodeMessage s1, encodeMessage s2]).2
      = (some s2, []) := by
  have ha := readMessageText_frame s1 [] [encodeMessage s2] h1
  rw [List.append_nil] at ha
  have hb := readMessageText_frame s2 [] [] h2
  rw [List.append_nil] at hb
  refine ⟨readMessageText_frame s1 (encodeMessage s2) [] h1, ha, ?_⟩
  rw [ha]
  exact hb

/-- Witness for `framing_extra_bytes` at concrete frames. -/
theorem framing_extra_bytes_witness :
    readMessageText [encodeMessage "abc" ++ encodeMessage "de"] = (some "abc", []) ∧
    readMessageText [encodeMessage "abc", encodeMessage "de"]
      = (some "abc", [encodeMessage "de"]) := by
  have h := framing_extra_bytes "abc" "de" (by decide) (by decide)
  exact ⟨h.1, h.2.1⟩

end OC
